import Mathlib

/-!
Shallow embedding of `src/main.py` of tsilva/health-log-parser.

The program splits a markdown health journal into date-headed sections
(`split_markdown_sections`), extracts a date key per section
(`extract_date_from_section`), and for each section either reuses a cached
processed artifact (keyed by a sha256 digest stored as the artifact's first
line) or invokes an LLM service once (`process_section`) and writes the
artifact (`process_and_write` inside `extract_task`).  Finally the collected
entries are sorted by date key descending and joined into the curated log.

External collaborators are parameters (`Env`):
  * `dateParse` models `dateutil.parser.parse` composed with
    `strftime("%Y-%m-%d")`: it maps a whitespace-delimited token to its
    canonical date string, or `none` when the token does not parse;
  * `digest` models `hashlib.sha256(...).hexdigest()`;
  * `gen` models the chat-completion call: `Except.error` models a raised
    transport exception, `Except.ok r` the returned message content.

The filesystem is modelled as three maps from the date key to optional file
contents (`raw` / `processed` / `errors` artifacts of one input stem; the
per-input data directory is fixed during one run).  The thread pool of
`extract_task` is sequentialized in dispatch order: workers touch disjoint
files when date keys are distinct, and the final sort makes the curated
output order-independent, so this linearization is faithful for the
properties stated below; a worker exception surfaces via `Except.error`
after all workers ran (the pool's shutdown waits for siblings).
-/

namespace HealthLog

/-! ### Python string primitives, modelled on `List Char`.

`Char.isWhitespace` covers `' '`, `'\t'`, `'\r'`, `'\n'`; Python's `str.strip`
and `\s` additionally cover `\x0b`/`\x0c` and exotic unicode whitespace,
which never occur in the artifacts of this program. -/

/-- `str.strip()` on the underlying character list. -/
def stripChars (cs : List Char) : List Char :=
  ((cs.dropWhile Char.isWhitespace).reverse.dropWhile Char.isWhitespace).reverse

/-- Model of Python `str.strip()`. -/
def pyStrip (s : String) : String := ⟨stripChars s.data⟩

/-- Core of `str.splitlines()`: split on `\n`, `\r`, `\r\n`, terminators
dropped, no trailing empty line.  The flag records that the previous
character was `'\r'` (whose line was already emitted), so that a directly
following `'\n'` is part of the same `'\r\n'` terminator. -/
def splitlinesAux : List Char → List Char → Bool → List (List Char)
  | [], acc, _ => if acc.isEmpty then [] else [acc.reverse]
  | c :: rest, acc, afterCR =>
    if c = '\n' then
      if afterCR then splitlinesAux rest [] false
      else acc.reverse :: splitlinesAux rest [] false
    else if c = '\r' then acc.reverse :: splitlinesAux rest [] true
    else splitlinesAux rest (c :: acc) false

/-- Model of Python `str.splitlines()`. -/
def pySplitlines (s : String) : List String :=
  (splitlinesAux s.data [] false).map fun cs => (⟨cs⟩ : String)

/-- Core of `file.readlines()` (text mode, `\n`-terminated lines, the
terminator is kept in each line except possibly the last). -/
def readlinesAux : List Char → List Char → List (List Char)
  | [], acc => if acc.isEmpty then [] else [acc.reverse]
  | c :: rest, acc =>
    if c = '\n' then (c :: acc).reverse :: readlinesAux rest []
    else readlinesAux rest (c :: acc)

/-- Model of `file.readlines()` on a file's full contents. -/
def pyReadlines (s : String) : List String :=
  (readlinesAux s.data []).map fun cs => (⟨cs⟩ : String)

/-- Model of `"".join(...)`. -/
def concatStrings : List String → String
  | [] => ""
  | s :: rest => s ++ concatStrings rest

/-- Model of `sep.join(...)`. -/
def joinSep (sep : String) : List String → String
  | [] => ""
  | [s] => s
  | s :: rest => s ++ sep ++ joinSep sep rest

/-- Core of `re.split(r'\s+', header)` for an already-stripped `header`:
whitespace-delimited tokens. -/
def splitWsAux : List Char → List Char → List (List Char)
  | [], acc => if acc.isEmpty then [] else [acc.reverse]
  | c :: rest, acc =>
    if c.isWhitespace then
      if acc.isEmpty then splitWsAux rest []
      else acc.reverse :: splitWsAux rest []
    else splitWsAux rest (c :: acc)

/-- Model of `re.split(r'\s+', header)` (the call site strips `header`
first, so no empty tokens arise). -/
def splitWs (s : String) : List String :=
  (splitWsAux s.data []).map fun cs => (⟨cs⟩ : String)

/-- Model of `str.lstrip("#")`. -/
def lstripHash (s : String) : String := ⟨s.data.dropWhile fun c => c = '#'⟩

/-- `needle` occurs at the start of `hay` (model of `str.startswith`). -/
def startsWithList : List Char → List Char → Bool
  | [], _ => true
  | _ :: _, [] => false
  | a :: as, b :: bs => a = b && startsWithList as bs

/-- `needle` occurs somewhere in `hay` (model of Python's `in` on strings). -/
def containsList (needle : List Char) : List Char → Bool
  | [] => startsWithList needle []
  | hay@(_ :: rest) => startsWithList needle hay || containsList needle rest

/-- Lexicographic comparison by unicode code point, the order Python uses to
sort strings (models `x <= y` as used by `list.sort(key=...)`). -/
def lexLe : List Char → List Char → Bool
  | [], _ => true
  | _ :: _, [] => false
  | a :: as, b :: bs => if a < b then true else if b < a then false else lexLe as bs

/-! ### `split_markdown_sections` (src/main.py line 73-75)

`re.split(r'(?=^###\s+\d{4}-\d{2}-\d{2})', text, flags=re.MULTILINE)` cuts
the text right before every line that starts with `###`, whitespace, and a
`\d{4}-\d{2}-\d{2}` date; the pieces are stripped and blanks dropped. -/

/-- Does the character list start with `\d{4}-\d{2}-\d{2}`? -/
def headerDate : List Char → Bool
  | a :: b :: c :: d :: '-' :: e :: f :: '-' :: g :: h :: _ =>
    a.isDigit && b.isDigit && c.isDigit && d.isDigit &&
      e.isDigit && f.isDigit && g.isDigit && h.isDigit
  | _ => false

/-- Does the character list start with `\s+\d{4}-\d{2}-\d{2}`? -/
def wsThenDate : List Char → Bool
  | [] => false
  | c :: rest => c.isWhitespace && (headerDate rest || wsThenDate rest)

/-- Does the character list start with the section boundary
`###\s+\d{4}-\d{2}-\d{2}`? -/
def headerStart : List Char → Bool
  | a :: b :: c :: rest => a = '#' && b = '#' && c = '#' && wsThenDate rest
  | _ => false

/-- Scan the text cutting right before each line-start boundary match
(`atStart` is true at position 0 and right after every `\n`, as with
`re.MULTILINE`); `acc` holds the current piece reversed.  A boundary at
position 0 produces the empty leading piece `re.split` would also produce,
here simply not materialized (it is blank and dropped by the caller). -/
def splitAux : List Char → Bool → List Char → List (List Char)
  | [], _, acc => [acc.reverse]
  | c :: rest, atStart, acc =>
    if atStart && headerStart (c :: rest) && !acc.isEmpty then
      acc.reverse :: splitAux rest (c = '\n') [c]
    else
      splitAux rest (c = '\n') (c :: acc)

/-- The raw (unstripped) pieces of the input text. -/
def splitChunks (cs : List Char) : List (List Char) := splitAux cs true []

/-- Number of boundary positions (line starts matching the section-header
pattern) in the text; `atStart` as in `splitAux`. -/
def countBoundaries : List Char → Bool → Nat
  | [], _ => 0
  | c :: rest, atStart =>
    (if atStart && headerStart (c :: rest) then 1 else 0) + countBoundaries rest (c = '\n')

/-- `split_markdown_sections` (src/main.py): stripped non-blank pieces. -/
def split_markdown_sections (text : String) : List String :=
  ((splitChunks text.data).map fun cs => pyStrip ⟨cs⟩).filter fun s => s ≠ ""

/-! ### The environment of external collaborators -/

structure Env where
  dateParse : String → Option String
  digest : String → String
  gen : String → Except Unit String

/-! ### `extract_date_from_section` (src/main.py line 78-85) -/

/-- `extract_date_from_section`: take the section's first line, strip the
leading `#` marks, tokenize on whitespace, return the canonical form of the
first token that parses as a date; `"unknown"` when none does.  (`[0]` on
the splitlines result is modelled with a `""` default; callers pass
non-blank sections, for which the line list is non-empty.) -/
def extract_date_from_section (dateParse : String → Option String) (s : String) : String :=
  let header := pyStrip (lstripHash ((pySplitlines (pyStrip s)).headD ""))
  match (splitWs header).findSome? dateParse with
  | some d => d
  | none => "unknown"

/-! ### `process_section` (src/main.py line 88-101)

Returns the worker outcome together with the number of service invocations
performed (0 or 1).  `Except.ok none` models returning `None`; a returned
string is the stripped message content. -/

def process_section (gen : String → Except Unit String) (s : String) :
    Except Unit (Option String) × Nat :=
  let lines := pySplitlines (pyStrip s)
  if lines.isEmpty then (Except.ok none, 0)
  else if !startsWithList "###".data (lines.headD "").data then (Except.ok none, 0)
  else if lines.tail.all (fun l => pyStrip l = "") then (Except.ok none, 0)
  else
    match gen s with
    | Except.error e => (Except.error e, 1)
    | Except.ok resp => (Except.ok (some (pyStrip resp)), 1)

/-! ### The filesystem model -/

/-- The three per-date-key artifact families of one input's data directory:
`{stem}_{date}.raw.md`, `{stem}_{date}.processed.md`,
`{stem}_{date}.errors.md`. -/
structure FS where
  raw : String → Option String
  processed : String → Option String
  errors : String → Option String

def FS.empty : FS := ⟨fun _ => none, fun _ => none, fun _ => none⟩

/-- Write one file (update one key of a map). -/
def upd (m : String → Option String) (k v : String) : String → Option String :=
  fun q => if q = k then some v else m q

/-! ### `extract_task` (src/main.py line 126-189) -/

/-- The cache check of `extract_task` (lines 141-153): stale unless the
processed artifact's first line (stripped) equals the current digest; an
errors artifact with no line containing `$OK$` forces reprocessing. -/
def needs_processing (pm em : String → Option String) (d dg : String) : Bool :=
  let base :=
    match pm d with
    | none => true
    | some content =>
      let lines := pyReadlines content
      !(!lines.isEmpty && pyStrip (lines.headD "") = dg)
  match em d with
  | none => base
  | some e => if (pyReadlines e).any (fun l => containsList "$OK$".data l.data) then base else true

/-- Accumulator of the first (sequential) loop of `extract_task`. -/
structure P1 where
  fs : FS
  entries : List (String × String)
  toProcess : List (String × String × String)

/-- One iteration of the first loop of `extract_task` (lines 134-162):
write the raw artifact, then either queue the section for processing or
read the cached entry (content after the digest line, stripped). -/
def phase1Step (env : Env) (acc : P1) (s : String) : P1 :=
  let d := extract_date_from_section env.dateParse s
  let fs1 : FS := { acc.fs with raw := upd acc.fs.raw d s }
  let dg := env.digest s
  if needs_processing fs1.processed fs1.errors d dg then
    { fs := fs1, entries := acc.entries, toProcess := acc.toProcess ++ [(s, dg, d)] }
  else
    match fs1.processed d with
    | some content =>
      let pc := pyStrip (concatStrings (pyReadlines content).tail)
      if pc ≠ "" then
        { fs := fs1, entries := acc.entries ++ [(d, pc)], toProcess := acc.toProcess }
      else { fs := fs1, entries := acc.entries, toProcess := acc.toProcess }
    | none => { fs := fs1, entries := acc.entries, toProcess := acc.toProcess }

def phase1 (env : Env) (fs0 : FS) (sections : List String) : P1 :=
  sections.foldl (phase1Step env) ⟨fs0, [], []⟩

/-- `process_and_write` (lines 165-171): run the worker; on a truthy result
write the processed artifact `"{digest}\n{formatted.strip()}\n"` and return
the entry.  Also reports the number of service invocations. -/
def process_and_write (gen : String → Except Unit String) (fs : FS)
    (s dg d : String) : FS × Except Unit (Option (String × String)) × Nat :=
  match process_section gen s with
  | (Except.error e, n) => (fs, Except.error e, n)
  | (Except.ok none, n) => (fs, Except.ok none, n)
  | (Except.ok (some fm), n) =>
    if fm = "" then (fs, Except.ok none, n)
    else
      ({ fs with processed := upd fs.processed d (dg ++ "\n" ++ pyStrip fm ++ "\n") },
       Except.ok (some (d, pyStrip fm)), n)

/-- Accumulator of the worker pool of `extract_task` (lines 173-182),
sequentialized in dispatch order; `calls` records the date key of every
service invocation. -/
structure P2 where
  fs : FS
  results : List (Except Unit (Option (String × String)))
  calls : List String

def phase2Step (gen : String → Except Unit String) (acc : P2) :
    String × String × String → P2
  | (s, dg, d) =>
    let r := process_and_write gen acc.fs s dg d
    { fs := r.1, results := acc.results ++ [r.2.1],
      calls := acc.calls ++ List.replicate r.2.2 d }

def phase2 (gen : String → Except Unit String) (fs0 : FS)
    (tp : List (String × String × String)) : P2 :=
  tp.foldl (phase2Step gen) ⟨fs0, [], []⟩

/-- The `f.result()` collection loop: the first worker exception re-raises
and aborts `extract_task`; otherwise the truthy results are gathered. -/
def collectResults : List (Except Unit (Option (String × String))) →
    Except Unit (List (String × String))
  | [] => Except.ok []
  | Except.error e :: _ => Except.error e
  | Except.ok none :: rest => collectResults rest
  | Except.ok (some x) :: rest => (collectResults rest).map (x :: ·)

/-- The sort relation of `processed_entries.sort(key=lambda x: x[0],
reverse=True)`: descending by date key. -/
def entryGe (a b : String × String) : Prop := lexLe b.1.data a.1.data = true

instance : DecidableRel entryGe := fun a b =>
  inferInstanceAs (Decidable (lexLe b.1.data a.1.data = true))

/-- `processed_entries.sort(key=lambda x: x[0], reverse=True)`: Python's
sort is stable, hence equal to stable insertion sort by the same order. -/
def mergeEntries (entries : List (String × String)) : List (String × String) :=
  List.insertionSort entryGe entries

/-- `"\n\n".join([entry for _, entry in processed_entries])` (line 186). -/
def curated_log (entries : List (String × String)) : String :=
  joinSep "\n\n" (entries.map Prod.snd)

/-- Result of one `extract_task` run: final filesystem, date keys of all
service invocations, date keys of all dispatched sections, and the outcome:
`Except.ok` with the sorted entries written as the curated log, or
`Except.error` when a worker exception aborted the run before the curated
log was written. -/
structure ExtractOut where
  fs : FS
  calls : List String
  dispatched : List String
  outcome : Except Unit (List (String × String))

/-- `extract_task` (src/main.py lines 126-189). -/
def extract_task (env : Env) (text : String) (fs0 : FS) : ExtractOut :=
  let sections := split_markdown_sections text
  let p1 := phase1 env fs0 sections
  let p2 := phase2 env.gen p1.fs p1.toProcess
  let dispatched := p1.toProcess.map fun x => x.2.2
  match collectResults p2.results with
  | Except.error e => ⟨p2.fs, p2.calls, dispatched, Except.error e⟩
  | Except.ok collected =>
    ⟨p2.fs, p2.calls, dispatched, Except.ok (mergeEntries (p1.entries ++ collected))⟩

/-! ### The `extract` branch of `main` (src/main.py lines 121-124, 266-272)

`main` keys the data directory by the input file's content:
`data_dir = output/<short_hash>` where `short_hash` is
`get_file_short_hash(input_path)`, the first 8 hex characters of the
sha256 of the whole file.  As with `Env.digest` (which stands for the full
`hashlib.sha256(...).hexdigest()`), the model keeps the hash abstract and
collision-free on the inputs considered, so the truncation to 8 characters
is not materialized: the short hash is the abstract digest of the file
text. -/

/-- `get_file_short_hash` (src/main.py lines 121-124), under the abstract
digest (see the section comment on the elided 8-character truncation). -/
def get_file_short_hash (digest : String → String) (text : String) : String :=
  digest text

/-- The `output/` tree: one data directory per short hash.
`mkdir(parents=True, exist_ok=True)` means an absent directory reads as
empty. -/
def Store := String → FS

def Store.empty : Store := fun _ => FS.empty

/-- `main`, task `extract` (src/main.py lines 266-272): hash the input
file's text, select (or create) the data directory `output/<short_hash>`,
and run `extract_task` in it; the updated directory is stored back under
the same key. -/
def main_extract (env : Env) (store : Store) (text : String) : ExtractOut × Store :=
  let dir := get_file_short_hash env.digest text
  let out := extract_task env text (store dir)
  (out, fun k => if k = dir then out.fs else store k)

/-! ### Characterization layer

Per-section descriptions of what the two loops of `extract_task` do, proved
below to coincide with the folds.  These are proof-layer views, not source
translations. -/

/-- The date key of a section. -/
def sectionDate (env : Env) (s : String) : String :=
  extract_date_from_section env.dateParse s

/-- Does `process_section` reach the service call on this section?
(first line of the stripped section starts with `###` and some later line
is non-blank). -/
def invokes (s : String) : Bool :=
  let lines := pySplitlines (pyStrip s)
  !lines.isEmpty && startsWithList "###".data (lines.headD "").data &&
    !(lines.tail.all fun l => pyStrip l = "")

/-- The worker's returned value as a function of the section alone. -/
def workerRes (gen : String → Except Unit String) (s d : String) :
    Except Unit (Option (String × String)) :=
  match process_section gen s with
  | (Except.error e, _) => Except.error e
  | (Except.ok none, _) => Except.ok none
  | (Except.ok (some fm), _) => if fm = "" then Except.ok none else Except.ok (some (d, pyStrip fm))

/-- The processed-artifact content `process_and_write` stores, when it
stores one. -/
def writtenContent (gen : String → Except Unit String) (s dg : String) : Option String :=
  match process_section gen s with
  | (Except.ok (some fm), _) => if fm = "" then none else some (dg ++ "\n" ++ pyStrip fm ++ "\n")
  | _ => none

/-- Does this section's worker hit the cache check of the first loop?
(true ⇔ the section is not queued for processing). -/
def p1needs (env : Env) (pm em : String → Option String) (s : String) : Bool :=
  needs_processing pm em (sectionDate env s) (env.digest s)

/-- The entry the first loop collects for a cache-hit section. -/
def p1entry (env : Env) (pm em : String → Option String) (s : String) :
    Option (String × String) :=
  if p1needs env pm em s then none
  else
    match pm (sectionDate env s) with
    | some content =>
      let pc := pyStrip (concatStrings (pyReadlines content).tail)
      if pc ≠ "" then some (sectionDate env s, pc) else none
    | none => none

/-- The work item the first loop queues for a stale section. -/
def p1disp (env : Env) (pm em : String → Option String) (s : String) :
    Option (String × String × String) :=
  if p1needs env pm em s then some (s, env.digest s, sectionDate env s) else none

/-- The raw-artifact map after the first loop (every section's raw file is
rewritten, later sections last). -/
def rawAfter (env : Env) : (String → Option String) → List String → String → Option String
  | m, [] => m
  | m, s :: rest => rawAfter env (upd m (sectionDate env s) s) rest

/-- The processed-artifact map threaded through the worker pool. -/
def fsAfter (gen : String → Except Unit String) : FS → List (String × String × String) → FS
  | fs, [] => fs
  | fs, x :: rest => fsAfter gen (process_and_write gen fs x.1 x.2.1 x.2.2).1 rest

/-- The work items `extract_task` queues on this input and cache state. -/
def dispatchList (env : Env) (fs0 : FS) (text : String) :
    List (String × String × String) :=
  (split_markdown_sections text).filterMap (p1disp env fs0.processed fs0.errors)

/-- The entry a dispatched worker contributes to the collection, if any. -/
def workerEntry (gen : String → Except Unit String) (s d : String) :
    Option (String × String) :=
  match workerRes gen s d with
  | Except.ok (some e) => some e
  | _ => none

/-- The service returns (without raising) a non-blank response for this
section. -/
def genAccepts (env : Env) (s : String) : Bool :=
  match env.gen s with
  | Except.ok r => !(pyStrip r = "")
  | Except.error _ => false

/-- The curated entry a section contributes when processed from scratch:
its date key with the stripped service response, provided the section
invokes the service and the response is non-blank. -/
def acceptedEntry (env : Env) (s : String) : Option (String × String) :=
  if invokes s then
    match env.gen s with
    | Except.ok r => if pyStrip r = "" then none else some (sectionDate env s, pyStrip r)
    | Except.error _ => none
  else none

/-! ### Concrete instances of the external collaborators -/

/-- `dateutil.parser.parse(token, fuzzy=False) .strftime("%Y-%m-%d")`
restricted to canonical `YYYY-MM-DD` tokens (which dateutil parses to
themselves); on every token used in the concrete inputs below that is not
of this shape, dateutil raises, i.e. returns `none` here. -/
def canonicalDateParse (tok : String) : Option String :=
  match tok.data with
  | [a, b, c, d, '-', e, f, '-', g, h] =>
    if a.isDigit && b.isDigit && c.isDigit && d.isDigit &&
        e.isDigit && f.isDigit && g.isDigit && h.isDigit then some tok else none
  | _ => none

/-- Stand-in for `hashlib.sha256(...).hexdigest()` used in concrete runs:
whitespace-free (as a hex digest is) and injective on the concrete inputs
below. -/
def digestModel (s : String) : String :=
  "h" ++ (⟨s.data.map fun c => if c.isWhitespace then 'w' else c⟩ : String) ++ "h"

/-- A service that accepts every section and echoes it in one bullet. -/
def envA : Env := ⟨canonicalDateParse, digestModel, fun s => Except.ok ("- entry for " ++ s)⟩

/-- A service that always answers with blank content (falsy result). -/
def envBlank : Env := ⟨canonicalDateParse, digestModel, fun _ => Except.ok ""⟩

/-- A service whose transport raises on the section dated 2023-01-02. -/
def envErr : Env :=
  ⟨canonicalDateParse, digestModel,
   fun s => if containsList "2023-01-02".data s.data then Except.error () else Except.ok "done"⟩

instance {ε α : Type} [DecidableEq ε] [DecidableEq α] : DecidableEq (Except ε α)
  | Except.ok a, Except.ok b =>
    if h : a = b then isTrue (by rw [h]) else isFalse fun hh => h (Except.ok.inj hh)
  | Except.ok _, Except.error _ => isFalse fun hh => Except.noConfusion hh
  | Except.error _, Except.ok _ => isFalse fun hh => Except.noConfusion hh
  | Except.error a, Except.error b =>
    if h : a = b then isTrue (by rw [h]) else isFalse fun hh => h (Except.error.inj hh)

/-! ### Concrete runs used by the counterexamples -/

/-- Two sections with the same date key, first run from an empty cache. -/
def runDup1 : ExtractOut :=
  extract_task envA "### 2023-01-01\na\n### 2023-01-01\nb" FS.empty

/-- Second run on the unchanged duplicate-key input. -/
def runDup2 : ExtractOut :=
  extract_task envA "### 2023-01-01\na\n### 2023-01-01\nb" runDup1.fs

/-- One well-formed section whose service response is blank. -/
def runBlank : ExtractOut :=
  extract_task envBlank "### 2023-02-02\nmigraine all day" FS.empty

/-- Two sections, the worker of the second raises. -/
def runExc : ExtractOut :=
  extract_task envErr "### 2023-01-01\nfelt fine\n### 2023-01-02\nheadache" FS.empty

/-- A main-level run on a two-section input, starting from an empty
`output/` tree. -/
def runMain1 : ExtractOut × Store :=
  main_extract envA Store.empty "### 2023-01-01\na\n\n### 2023-01-02\nkept"

/-- The next main-level run after mutating a single byte of the first
section's body (`a` becomes `b`); the second section is untouched. -/
def runMain2 : ExtractOut × Store :=
  main_extract envA runMain1.2 "### 2023-01-01\nb\n\n### 2023-01-02\nkept"

/-- A non-blank preamble whose first line starts with `###` but is not a
date header, followed by one normal section. -/
def runPre : ExtractOut :=
  extract_task envA "### note\nstuff\n### 2023-01-01\nbody" FS.empty

/-- C1 counterexample: on an input with two sections sharing one date key the
second run on unchanged input still performs a service invocation (the claim
requires zero for every input). -/
theorem extract_twice_duplicate_key_reinvokes :
    runDup2.calls = ["2023-01-01"] ∧ runDup1.calls.length = 2 := by decide

/-- C2 counterexample: a worker whose service response is never accepted
performs exactly one generate invocation, not three generate+validate
attempt pairs; no artifact is written and the run completes. -/
theorem worker_single_attempt_not_three :
    runBlank.calls = ["2023-02-02"] ∧ runBlank.fs.processed "2023-02-02" = none ∧
      runBlank.outcome = Except.ok [] := by decide

/-- C3 counterexample: an input with a duplicate date key does not abort the
run; both sections are dispatched and the service is invoked twice. -/
theorem duplicate_dates_run_completes_with_calls :
    runDup1.dispatched = ["2023-01-01", "2023-01-01"] ∧ runDup1.calls.length = 2 ∧
      runDup1.outcome.isOk = true := by decide

/-- C4 counterexample: one worker's exception propagates and the run fails
(no curated document), even though the sibling worker's artifact persists. -/
theorem worker_exception_aborts_run :
    runExc.outcome = Except.error () ∧ runExc.fs.processed "2023-01-01" ≠ none := by decide

/-- C5 counterexample: the data directory is keyed by a digest of the whole
input file, so a single-byte mutation of one section's body re-homes the
next run to a fresh, never-written directory: the untouched sibling section
`2023-01-02` is re-invoked as well — two service calls, not exactly one for
the mutated date key — and no per-section cache entry survives the edit. -/
theorem sibling_reinvoked_after_one_byte_edit :
    runMain2.1.calls = ["2023-01-01", "2023-01-02"] ∧
      runMain1.1.calls = ["2023-01-01", "2023-01-02"] := by decide

/-- C6 counterexample: with a non-blank preamble the input has one detected
header line but split returns two sections. -/
theorem preamble_breaks_header_section_count :
    countBoundaries "preamble\n### 2023-01-01\na".data true = 1 ∧
      (split_markdown_sections "preamble\n### 2023-01-01\na").length = 2 := by decide

/-- C10 counterexample: a preamble whose first line starts with `###` (not a
date header) is dispatched and does invoke the service, under date key
`unknown`. -/
theorem hash_preamble_invokes_service :
    runPre.calls = ["unknown", "2023-01-01"] ∧ runPre.outcome.isOk = true := by decide

/-! ### Lemmas about the string primitives -/

theorem stripChars_def (cs : List Char) :
    stripChars cs = List.rdropWhile Char.isWhitespace (List.dropWhile Char.isWhitespace cs) :=
  rfl

theorem dropWhile_of_prefix_of_eq_self {p : Char → Bool} {y z : List Char}
    (hpre : z <+: y) (hy : List.dropWhile p y = y) : List.dropWhile p z = z := by
  cases z with
  | nil => rfl
  | cons a zs =>
    cases y with
    | nil =>
      obtain ⟨t, ht⟩ := hpre
      exact absurd ht (by simp)
    | cons b ys =>
      obtain ⟨t, ht⟩ := hpre
      have hab : a = b := by
        have := congrArg (fun l => l.headD a) ht
        simpa using this
      have hb : ¬p b = true := by
        have := List.dropWhile_eq_self_iff.mp hy (by simp)
        simpa using this
      subst hab
      simp [List.dropWhile_cons, hb]

theorem stripChars_idem (cs : List Char) : stripChars (stripChars cs) = stripChars cs := by
  rw [stripChars_def, stripChars_def]
  have h1 : List.dropWhile Char.isWhitespace (List.dropWhile Char.isWhitespace cs) =
      List.dropWhile Char.isWhitespace cs := List.dropWhile_idempotent _ cs
  rw [dropWhile_of_prefix_of_eq_self (List.rdropWhile_prefix _ _) h1,
    List.rdropWhile_idempotent]

theorem stripChars_append_ws {w : Char} (hw : w.isWhitespace = true) (cs : List Char) :
    stripChars (cs ++ [w]) = stripChars cs := by
  rw [stripChars_def, stripChars_def, List.dropWhile_append]
  rcases h : List.dropWhile Char.isWhitespace cs with _ | ⟨a, as⟩
  · simp [List.dropWhile_cons, hw]
  · simp only [List.isEmpty_cons, ite_false, Bool.false_eq_true]
    exact List.rdropWhile_concat_pos _ _ _ hw

theorem stripChars_eq_nil_iff (cs : List Char) :
    stripChars cs = [] ↔ ∀ c ∈ cs, c.isWhitespace = true := by
  rw [stripChars_def, List.rdropWhile_eq_nil_iff]
  constructor
  · intro h c hc
    rw [← List.takeWhile_append_dropWhile Char.isWhitespace cs] at hc
    rcases List.mem_append.mp hc with h1 | h2
    · exact List.mem_takeWhile_imp h1
    · exact h _ h2
  · intro h c hc
    exact h c ((List.dropWhile_suffix _).subset hc)

theorem stripChars_of_no_ws {cs : List Char} (h : ∀ c ∈ cs, c.isWhitespace = false) :
    stripChars cs = cs := by
  rw [stripChars_def]
  have h1 : List.dropWhile Char.isWhitespace cs = cs := by
    rw [List.dropWhile_eq_self_iff]
    intro hl
    have := h _ (List.get_mem cs 0 hl)
    simp only [List.get_eq_getElem] at this
    simp [this]
  rw [h1, List.rdropWhile_eq_self_iff]
  intro hl
  have := h _ (List.getLast_mem hl)
  simp [this]

theorem pyStrip_idem (s : String) : pyStrip (pyStrip s) = pyStrip s := by
  apply String.ext
  simp only [pyStrip]
  exact stripChars_idem s.data

theorem pyStrip_append_nl (s : String) : pyStrip (s ++ "\n") = pyStrip s := by
  apply String.ext
  simp only [pyStrip, String.data_append]
  exact stripChars_append_ws (by decide) s.data

/-- `readlinesAux` on a newline-free chunk followed by `'\n'` emits that
first line and recurses. -/
theorem readlinesAux_append_nl (rest : List Char) :
    ∀ (xs acc : List Char), (∀ c ∈ xs, c ≠ '\n') →
      readlinesAux (xs ++ '\n' :: rest) acc =
        (acc.reverse ++ xs ++ ['\n']) :: readlinesAux rest []
  | [], acc, _ => by simp [readlinesAux]
  | c :: xs, acc, h => by
    have hc : c ≠ '\n' := h c (by simp)
    have hrec := readlinesAux_append_nl rest xs (c :: acc) fun x hx => h x (by simp [hx])
    rw [List.cons_append, readlinesAux, if_neg hc, hrec]
    congr 1
    simp [List.reverse_cons, List.append_assoc]

theorem readlinesAux_flatten :
    ∀ (cs acc : List Char), (readlinesAux cs acc).flatten = acc.reverse ++ cs
  | [], acc => by
    by_cases h : acc.isEmpty
    · simp [readlinesAux, h, List.isEmpty_iff.mp h]
    · simp [readlinesAux, h]
  | c :: rest, acc => by
    by_cases h : c = '\n'
    · subst h
      simp [readlinesAux, readlinesAux_flatten rest []]
    · simp [readlinesAux, h, readlinesAux_flatten rest (c :: acc)]

theorem concatStrings_data :
    ∀ l : List String, (concatStrings l).data = (l.map String.data).flatten
  | [] => rfl
  | s :: rest => by
    simp [concatStrings, String.data_append, concatStrings_data rest]

theorem concatStrings_map_mk (l : List (List Char)) :
    concatStrings (l.map fun cs => (⟨cs⟩ : String)) = ⟨l.flatten⟩ := by
  induction l with
  | nil => rfl
  | cons a t ih =>
    apply String.ext
    simp [concatStrings, String.data_append, ih]

theorem concatStrings_pyReadlines (s : String) : concatStrings (pyReadlines s) = s := by
  apply String.ext
  simp only [pyReadlines, concatStrings_map_mk]
  exact readlinesAux_flatten s.data []

/-- `readlines` of a digest line followed by a body: the digest line comes
first. -/
theorem pyReadlines_digest_line (dg body : String) (h : ∀ c ∈ dg.data, c ≠ '\n') :
    pyReadlines (dg ++ "\n" ++ body) = (dg ++ "\n") :: pyReadlines body := by
  have hdata : (dg ++ "\n" ++ body).data = dg.data ++ '\n' :: body.data := by
    simp [String.data_append]
  have hhead : (⟨[].reverse ++ dg.data ++ ['\n']⟩ : String) = dg ++ "\n" := by
    apply String.ext
    simp [String.data_append]
  simp only [pyReadlines, hdata, readlinesAux_append_nl body.data dg.data [] h,
    List.map_cons, hhead]

/-! ### The digest stand-in is whitespace-free -/

theorem digestModel_chars (s : String) : ∀ c ∈ (digestModel s).data, c.isWhitespace = false := by
  intro c hc
  have hD : (digestModel s).data =
      'h' :: ((s.data.map fun c => if c.isWhitespace then 'w' else c) ++ ['h']) := rfl
  rw [hD] at hc
  rcases List.mem_cons.mp hc with h1 | h2
  · subst h1; decide
  rcases List.mem_append.mp h2 with h3 | h4
  · obtain ⟨a, _, ha⟩ := List.mem_map.mp h3
    by_cases hw : a.isWhitespace = true
    · rw [← ha, if_pos hw]; decide
    · rw [← ha, if_neg hw]; simpa using hw
  · have hc4 : c = 'h' := by simpa using h4
    subst hc4; decide

theorem digestModel_strip (s : String) : pyStrip (digestModel s) = digestModel s := by
  apply String.ext
  exact stripChars_of_no_ws (digestModel_chars s)

theorem digestModel_no_nl (s : String) : ∀ c ∈ (digestModel s).data, c ≠ '\n' := by
  intro c hc heq
  have := digestModel_chars s c hc
  rw [heq] at this
  exact absurd this (by decide)

/-! ### The merge order: `lexLe` is a total order, sorting is unique -/

theorem lexLe_refl (a : List Char) : lexLe a a = true := by
  induction a with
  | nil => rfl
  | cons x xs ih => simp [lexLe, lt_irrefl, ih]

theorem lexLe_total (a b : List Char) : lexLe a b = true ∨ lexLe b a = true := by
  induction a generalizing b with
  | nil => left; rfl
  | cons x xs ih =>
    cases b with
    | nil => right; rfl
    | cons y ys =>
      rcases lt_trichotomy x y with h | h | h
      · left; simp [lexLe, h]
      · subst h
        rcases ih ys with h2 | h2
        · left; simp [lexLe, lt_irrefl, h2]
        · right; simp [lexLe, lt_irrefl, h2]
      · right; simp [lexLe, h]

theorem lexLe_trans {a b c : List Char} (h1 : lexLe a b = true) (h2 : lexLe b c = true) :
    lexLe a c = true := by
  induction a generalizing b c with
  | nil => rfl
  | cons x xs ih =>
    cases b with
    | nil => simp [lexLe] at h1
    | cons y ys =>
      cases c with
      | nil => simp [lexLe] at h2
      | cons z zs =>
        rcases lt_trichotomy x y with hxy | hxy | hxy
        · rcases lt_trichotomy y z with hyz | hyz | hyz
          · simp [lexLe, lt_trans hxy hyz]
          · subst hyz; simp [lexLe, hxy]
          · simp [lexLe, hyz, lt_asymm hyz] at h2
        · subst hxy
          rcases lt_trichotomy x z with hyz | hyz | hyz
          · simp [lexLe, hyz]
          · subst hyz
            simp only [lexLe, lt_irrefl, if_false] at h1 h2 ⊢
            exact ih h1 h2
          · simp [lexLe, hyz, lt_asymm hyz] at h2
        · simp [lexLe, hxy, lt_asymm hxy] at h1

theorem lexLe_antisymm {a b : List Char} (h1 : lexLe a b = true) (h2 : lexLe b a = true) :
    a = b := by
  induction a generalizing b with
  | nil =>
    cases b with
    | nil => rfl
    | cons y ys => simp [lexLe] at h2
  | cons x xs ih =>
    cases b with
    | nil => simp [lexLe] at h1
    | cons y ys =>
      rcases lt_trichotomy x y with h | h | h
      · simp [lexLe, h, lt_asymm h] at h2
      · subst h
        simp only [lexLe, lt_irrefl, if_false] at h1 h2
        rw [ih h1 h2]
      · simp [lexLe, h, lt_asymm h] at h1

/-- Two sorted lists that are permutations of each other and have no
repeated date key are equal: the merge order is deterministic. -/
theorem sorted_nodup_keys_unique (l1 : List (String × String)) :
    ∀ l2, l1.Perm l2 → l1.Sorted entryGe → l2.Sorted entryGe →
      (l1.map Prod.fst).Nodup → l1 = l2 := by
  induction l1 with
  | nil =>
    intro l2 hp _ _ _
    exact (hp.symm.eq_nil).symm
  | cons a t1 ih =>
    intro l2 hp hs1 hs2 hnd
    cases l2 with
    | nil => exact absurd hp.eq_nil (by simp)
    | cons b t2 =>
      simp only [List.map_cons, List.nodup_cons] at hnd
      by_cases hab : a = b
      · subst hab
        have ht : t1.Perm t2 := hp.cons_inv
        rw [ih t2 ht hs1.of_cons hs2.of_cons hnd.2]
      · exfalso
        have hbmem : b ∈ a :: t1 := hp.symm.mem_iff.mp (by simp)
        have hamem : a ∈ b :: t2 := hp.mem_iff.mp (by simp)
        have hb1 : b ∈ t1 := by
          rcases List.mem_cons.mp hbmem with h | h
          · exact absurd h.symm hab
          · exact h
        have ha2 : a ∈ t2 := by
          rcases List.mem_cons.mp hamem with h | h
          · exact absurd h hab
          · exact h
        have h1 : entryGe a b := (List.sorted_cons.mp hs1).1 b hb1
        have h2 : entryGe b a := (List.sorted_cons.mp hs2).1 a ha2
        have hkey : b.1 = a.1 := String.ext (lexLe_antisymm h1 h2)
        exact hnd.1 (List.mem_map.mpr ⟨b, hb1, hkey⟩)

/-- C7.  The curated document is the entries sorted by date key in
descending lexicographic order: for every two completion orders of the same
successfully processed sections (with distinct date keys) the merge result
is identical, sorted descending, contains exactly the given entries, and
yields byte-identical curated text. -/
theorem merge_orders_descending_by_date (l1 l2 : List (String × String))
    (hperm : l1.Perm l2) (hnd : (l1.map Prod.fst).Nodup) :
    mergeEntries l1 = mergeEntries l2 ∧ (mergeEntries l1).Sorted entryGe ∧
      (mergeEntries l1).Perm l1 ∧
      curated_log (mergeEntries l1) = curated_log (mergeEntries l2) := by
  haveI : IsTotal (String × String) entryGe := ⟨fun a b => lexLe_total b.1.data a.1.data⟩
  haveI : IsTrans (String × String) entryGe :=
    ⟨fun _ _ _ h1 h2 => lexLe_trans h2 h1⟩
  have hs1 : (mergeEntries l1).Sorted entryGe := List.sorted_insertionSort entryGe l1
  have hs2 : (mergeEntries l2).Sorted entryGe := List.sorted_insertionSort entryGe l2
  have hp1 : (mergeEntries l1).Perm l1 := List.perm_insertionSort entryGe l1
  have hp2 : (mergeEntries l2).Perm l2 := List.perm_insertionSort entryGe l2
  have hpp : (mergeEntries l1).Perm (mergeEntries l2) :=
    (hp1.trans hperm).trans hp2.symm
  have hnd1 : ((mergeEntries l1).map Prod.fst).Nodup :=
    ((hp1.map Prod.fst).nodup_iff).mpr hnd
  have heq : mergeEntries l1 = mergeEntries l2 :=
    sorted_nodup_keys_unique (mergeEntries l1) (mergeEntries l2) hpp hs1 hs2 hnd1
  exact ⟨heq, hs1, hp1, by rw [heq]⟩

theorem merge_orders_descending_by_date_witness :
    ([("2023-04-10", "ten"), ("2023-04-12", "twelve"), ("2023-04-11", "eleven")] :
        List (String × String)).Perm
      [("2023-04-12", "twelve"), ("2023-04-11", "eleven"), ("2023-04-10", "ten")] ∧
    mergeEntries [("2023-04-10", "ten"), ("2023-04-12", "twelve"), ("2023-04-11", "eleven")] =
      mergeEntries [("2023-04-12", "twelve"), ("2023-04-11", "eleven"), ("2023-04-10", "ten")] ∧
    mergeEntries [("2023-04-10", "ten"), ("2023-04-12", "twelve"), ("2023-04-11", "eleven")] =
      [("2023-04-12", "twelve"), ("2023-04-11", "eleven"), ("2023-04-10", "ten")] ∧
    curated_log [("2023-04-12", "twelve"), ("2023-04-11", "eleven"), ("2023-04-10", "ten")] =
      "twelve\n\neleven\n\nten" :=
  ⟨by decide,
   (merge_orders_descending_by_date _ _ (by decide) (by decide)).1,
   by decide, by decide⟩

/-- C8.  A section whose body after the header line consists only of blank
lines short-circuits: the worker returns no output with zero service
invocations, and `process_and_write` leaves the filesystem unchanged
(no processed artifact) and contributes no entry. -/
theorem empty_body_short_circuits (gen : String → Except Unit String) (fs : FS)
    (s dg d : String)
    (hb : ∀ l ∈ (pySplitlines (pyStrip s)).tail, pyStrip l = "") :
    process_section gen s = (Except.ok none, 0) ∧
      process_and_write gen fs s dg d = (fs, Except.ok none, 0) := by
  have hps : process_section gen s = (Except.ok none, 0) := by
    have h3 : ((pySplitlines (pyStrip s)).tail.all fun l => decide (pyStrip l = "")) = true := by
      rw [List.all_eq_true]
      intro l hl
      simpa using hb l hl
    simp only [process_section]
    by_cases h1 : (pySplitlines (pyStrip s)).isEmpty = true
    · rw [if_pos h1]
    · rw [if_neg h1]
      by_cases h2 :
          (!startsWithList "###".data ((pySplitlines (pyStrip s)).headD "").data) = true
      · rw [if_pos h2]
      · rw [if_neg h2, if_pos h3]
  refine ⟨hps, ?_⟩
  unfold process_and_write
  rw [hps]

theorem empty_body_short_circuits_witness :
    (∀ l ∈ (pySplitlines (pyStrip "### 2023-03-03\n\n   \n")).tail, pyStrip l = "") ∧
      process_section envA.gen "### 2023-03-03\n\n   \n" = (Except.ok none, 0) ∧
      process_and_write envA.gen FS.empty "### 2023-03-03\n\n   \n" "dg" "2023-03-03" =
        (FS.empty, Except.ok none, 0) :=
  ⟨by decide,
   (empty_body_short_circuits envA.gen FS.empty "### 2023-03-03\n\n   \n" "dg" "2023-03-03"
     (by decide)).1,
   (empty_body_short_circuits envA.gen FS.empty "### 2023-03-03\n\n   \n" "dg" "2023-03-03"
     (by decide)).2⟩

/-! ### Characterization of the worker -/

theorem process_section_eq (gen : String → Except Unit String) (s : String) :
    process_section gen s =
      if invokes s then
        match gen s with
        | Except.error e => (Except.error e, 1)
        | Except.ok resp => (Except.ok (some (pyStrip resp)), 1)
      else (Except.ok none, 0) := by
  simp only [process_section, invokes]
  by_cases h1 : (pySplitlines (pyStrip s)).isEmpty = true
  · rw [if_pos h1, if_neg]
    simp [h1]
  · have h1f : (pySplitlines (pyStrip s)).isEmpty = false := by
      revert h1; cases (pySplitlines (pyStrip s)).isEmpty <;> simp
    rw [if_neg h1]
    by_cases h2 : startsWithList "###".data ((pySplitlines (pyStrip s)).headD "").data = true
    · have h2n : startsWithList ['#', '#', '#']
          ((pySplitlines (pyStrip s)).head?.getD "").data = true := by simpa using h2
      rw [if_neg (by simp [h2n])]
      by_cases h3 :
          ((pySplitlines (pyStrip s)).tail.all fun l => decide (pyStrip l = "")) = true
      · rw [if_pos h3, if_neg]
        intro hcon
        rw [Bool.and_eq_true] at hcon
        rw [h3] at hcon
        simp at hcon
      · have h3f :
            ((pySplitlines (pyStrip s)).tail.all fun l => decide (pyStrip l = "")) = false := by
          revert h3
          cases ((pySplitlines (pyStrip s)).tail.all fun l => decide (pyStrip l = "")) <;> simp
        have h3n : ∃ x ∈ (pySplitlines (pyStrip s)).tail, ¬pyStrip x = "" := by
          simpa using h3f
        rw [if_neg h3, if_pos]
        simp only [List.isEmpty_eq_true] at h1
        simp [h1, h2n, h3n]
    · have h2f :
          startsWithList "###".data ((pySplitlines (pyStrip s)).headD "").data = false := by
        revert h2
        cases startsWithList "###".data ((pySplitlines (pyStrip s)).headD "").data <;> simp
      have h2n : startsWithList ['#', '#', '#']
          ((pySplitlines (pyStrip s)).head?.getD "").data = false := by simpa using h2f
      rw [if_pos (by simp [h2n]), if_neg]
      simp [h2n]

theorem process_section_calls (gen : String → Except Unit String) (s : String) :
    (process_section gen s).2 = if invokes s then 1 else 0 := by
  rw [process_section_eq]
  by_cases hi : invokes s = true
  · rw [if_pos hi, if_pos hi]
    cases gen s <;> rfl
  · rw [if_neg hi, if_neg hi]

theorem process_and_write_eq (gen : String → Except Unit String) (fs : FS) (s dg d : String) :
    process_and_write gen fs s dg d =
      ({ fs with processed :=
          match writtenContent gen s dg with
          | some c => upd fs.processed d c
          | none => fs.processed },
       workerRes gen s d, (process_section gen s).2) := by
  unfold process_and_write workerRes writtenContent
  rcases hps : process_section gen s with ⟨res, n⟩
  cases res with
  | error e => rfl
  | ok o =>
    cases o with
    | none => rfl
    | some fm =>
      by_cases hfm : fm = ""
      · simp [hfm]
      · simp [hfm]

theorem process_and_write_processed_ne (gen : String → Except Unit String) (fs : FS)
    (s dg d0 d : String) (h : d ≠ d0) :
    ((process_and_write gen fs s dg d0).1).processed d = fs.processed d := by
  rw [process_and_write_eq]
  cases writtenContent gen s dg with
  | none => rfl
  | some c => simp [upd, h]

theorem process_and_write_processed_self (gen : String → Except Unit String) (fs : FS)
    (s dg d : String) :
    ((process_and_write gen fs s dg d).1).processed d =
      match writtenContent gen s dg with
      | some c => some c
      | none => fs.processed d := by
  rw [process_and_write_eq]
  cases writtenContent gen s dg with
  | none => rfl
  | some c => simp [upd]

theorem workerRes_accepted {gen : String → Except Unit String} {s : String} (r : String)
    (hi : invokes s = true) (hg : gen s = Except.ok r) (hr : pyStrip r ≠ "") (d dg : String) :
    workerRes gen s d = Except.ok (some (d, pyStrip r)) ∧
      writtenContent gen s dg = some (dg ++ "\n" ++ pyStrip r ++ "\n") := by
  unfold workerRes writtenContent
  rw [process_section_eq, if_pos hi, hg]
  simp [hr, pyStrip_idem]

theorem workerRes_blank {gen : String → Except Unit String} {s : String} (r : String)
    (hg : gen s = Except.ok r) (hr : pyStrip r = "") (d dg : String) :
    workerRes gen s d = Except.ok none ∧ writtenContent gen s dg = none := by
  unfold workerRes writtenContent
  rw [process_section_eq, hg]
  by_cases hi : invokes s = true
  · simp [hi, hr]
  · simp [hi]

theorem workerRes_inert (gen : String → Except Unit String) {s : String}
    (hi : invokes s = false) (d dg : String) :
    workerRes gen s d = Except.ok none ∧ writtenContent gen s dg = none := by
  unfold workerRes writtenContent
  rw [process_section_eq]
  simp [hi]

theorem workerRes_exc {gen : String → Except Unit String} {s : String}
    (hi : invokes s = true) (hg : gen s = Except.error ()) (d : String) :
    workerRes gen s d = Except.error () := by
  unfold workerRes
  rw [process_section_eq, if_pos hi, hg]

/-! ### Characterization of the two loops -/

theorem toList_append_filterMap {α β : Type} (f : α → Option β) (s : α) (rest : List α) :
    (f s).toList ++ rest.filterMap f = (s :: rest).filterMap f := by
  cases h : f s <;> simp [List.filterMap_cons, h]

theorem phase1Step_eq (env : Env) (acc : P1) (s : String) :
    phase1Step env acc s =
      ⟨⟨upd acc.fs.raw (sectionDate env s) s, acc.fs.processed, acc.fs.errors⟩,
       acc.entries ++ (p1entry env acc.fs.processed acc.fs.errors s).toList,
       acc.toProcess ++ (p1disp env acc.fs.processed acc.fs.errors s).toList⟩ := by
  unfold phase1Step p1entry p1disp p1needs sectionDate
  by_cases hn : needs_processing acc.fs.processed acc.fs.errors
      (extract_date_from_section env.dateParse s) (env.digest s) = true
  · simp [hn]
  · rw [if_neg hn]
    cases hpm : acc.fs.processed (extract_date_from_section env.dateParse s) with
    | none => simp [hn, hpm]
    | some content =>
      by_cases hpc : pyStrip (concatStrings (pyReadlines content).tail) ≠ ""
      · simp [hn, hpm, hpc]
      · simp [hn, hpm, hpc]

theorem phase1_foldl (env : Env) :
    ∀ (sections : List String) (acc : P1),
      sections.foldl (phase1Step env) acc =
        ⟨⟨rawAfter env acc.fs.raw sections, acc.fs.processed, acc.fs.errors⟩,
         acc.entries ++ sections.filterMap (p1entry env acc.fs.processed acc.fs.errors),
         acc.toProcess ++ sections.filterMap (p1disp env acc.fs.processed acc.fs.errors)⟩
  | [], acc => by simp [rawAfter]
  | s :: rest, acc => by
    rw [List.foldl_cons, phase1Step_eq, phase1_foldl env rest _]
    simp [rawAfter, toList_append_filterMap, List.append_assoc]

theorem phase2Step_eq (gen : String → Except Unit String) (acc : P2)
    (x : String × String × String) :
    phase2Step gen acc x =
      ⟨(process_and_write gen acc.fs x.1 x.2.1 x.2.2).1,
       acc.results ++ [workerRes gen x.1 x.2.2],
       acc.calls ++ (if invokes x.1 then [x.2.2] else [])⟩ := by
  rcases x with ⟨s, dg, d⟩
  simp only [phase2Step]
  rw [process_and_write_eq, process_section_calls]
  by_cases hi : invokes s = true
  · simp [hi, process_and_write_eq, List.replicate]
  · simp [hi, process_and_write_eq, List.replicate]

theorem phase2_foldl (gen : String → Except Unit String) :
    ∀ (tp : List (String × String × String)) (acc : P2),
      tp.foldl (phase2Step gen) acc =
        ⟨fsAfter gen acc.fs tp,
         acc.results ++ tp.map (fun x => workerRes gen x.1 x.2.2),
         acc.calls ++ ((tp.filter fun x => invokes x.1).map fun x => x.2.2)⟩
  | [], acc => by simp [fsAfter]
  | x :: rest, acc => by
    rw [List.foldl_cons, phase2Step_eq, phase2_foldl gen rest _]
    by_cases hx : invokes x.1 = true
    · simp [fsAfter, hx, List.filter_cons, List.append_assoc]
    · simp [fsAfter, hx, List.filter_cons, List.append_assoc]

theorem fsAfter_raw (gen : String → Except Unit String) :
    ∀ (tp : List (String × String × String)) (fs : FS), (fsAfter gen fs tp).raw = fs.raw
  | [], fs => rfl
  | x :: rest, fs => by
    rw [fsAfter, fsAfter_raw gen rest _, process_and_write_eq]

theorem fsAfter_errors (gen : String → Except Unit String) :
    ∀ (tp : List (String × String × String)) (fs : FS), (fsAfter gen fs tp).errors = fs.errors
  | [], fs => rfl
  | x :: rest, fs => by
    rw [fsAfter, fsAfter_errors gen rest _, process_and_write_eq]

theorem fsAfter_processed_notmem (gen : String → Except Unit String) :
    ∀ (tp : List (String × String × String)) (fs : FS) (d : String),
      (∀ x ∈ tp, x.2.2 ≠ d) → (fsAfter gen fs tp).processed d = fs.processed d
  | [], fs, d, _ => rfl
  | x :: rest, fs, d, h => by
    rw [fsAfter, fsAfter_processed_notmem gen rest _ d fun y hy => h y (by simp [hy]),
      process_and_write_processed_ne]
    exact fun hh => h x (by simp) hh.symm

theorem fsAfter_processed_unique (gen : String → Except Unit String) :
    ∀ (tp : List (String × String × String)) (fs : FS) (s dg d : String),
      (s, dg, d) ∈ tp → (tp.map fun x => x.2.2).Nodup →
      (fsAfter gen fs tp).processed d =
        match writtenContent gen s dg with
        | some c => some c
        | none => fs.processed d
  | [], _, _, _, _, hmem, _ => absurd hmem (by simp)
  | y :: rest, fs, s, dg, d, hmem, hnd => by
    simp only [List.map_cons, List.nodup_cons] at hnd
    rcases List.mem_cons.mp hmem with h1 | h1
    · subst h1
      rw [fsAfter]
      have hrest : ∀ x ∈ rest, x.2.2 ≠ d := by
        intro x hx heq
        exact hnd.1 (List.mem_map.mpr ⟨x, hx, heq⟩)
      rw [fsAfter_processed_notmem gen rest _ d hrest, process_and_write_processed_self]
    · have hne : d ≠ y.2.2 := by
        intro heq
        apply hnd.1
        rw [heq] at h1
        exact List.mem_map.mpr ⟨(s, dg, y.2.2), h1, rfl⟩
      rw [fsAfter, fsAfter_processed_unique gen rest _ s dg d h1 hnd.2]
      cases writtenContent gen s dg with
      | none => simp [process_and_write_processed_ne gen fs y.1 y.2.1 y.2.2 d hne]
      | some c => rfl

/-! ### Characterization of `collectResults` -/

theorem collectResults_ok (rs : List (Except Unit (Option (String × String))))
    (h : ∀ r ∈ rs, r ≠ Except.error ()) :
    collectResults rs = Except.ok (rs.filterMap fun r =>
      match r with
      | Except.ok (some x) => some x
      | _ => none) := by
  induction rs with
  | nil => rfl
  | cons r rest ih =>
    cases r with
    | error e => cases e; exact absurd rfl (h _ (by simp))
    | ok o =>
      have ihr := ih fun x hx => h x (by simp [hx])
      cases o with
      | none => simpa [collectResults, List.filterMap_cons] using ihr
      | some x => simp [collectResults, List.filterMap_cons, ihr, Except.map]

theorem collectResults_error (rs : List (Except Unit (Option (String × String))))
    (h : Except.error () ∈ rs) :
    collectResults rs = Except.error () := by
  induction rs with
  | nil => simp at h
  | cons r rest ih =>
    cases r with
    | error e => cases e; rfl
    | ok o =>
      have hrest : Except.error () ∈ rest := by
        rcases List.mem_cons.mp h with h1 | h1
        · exact absurd h1.symm (by simp)
        · exact h1
      cases o with
      | none => simpa [collectResults] using ih hrest
      | some x => simp [collectResults, ih hrest, Except.map]

/-! ### The cache check -/

theorem string_append_assoc (a b c : String) : a ++ b ++ c = a ++ (b ++ c) := by
  apply String.ext
  simp [String.data_append, List.append_assoc]

theorem needs_processing_none {pm em : String → Option String} {d : String} (dg : String)
    (hp : pm d = none) : needs_processing pm em d dg = true := by
  unfold needs_processing
  rw [hp]
  cases hem : em d with
  | none => rfl
  | some e =>
    by_cases h : (pyReadlines e).any (fun l => containsList "$OK$".data l.data) = true
    · simp [h]
    · simp [h]

theorem needs_processing_base_false {pm em : String → Option String} {d dg dg2 body : String}
    (hp : pm d = some (dg2 ++ "\n" ++ body))
    (hnl : ∀ c ∈ dg2.data, c ≠ '\n') (hst : pyStrip dg2 = dg2) (hne : dg2 ≠ dg) :
    needs_processing pm em d dg = true := by
  unfold needs_processing
  rw [hp]
  dsimp only
  rw [pyReadlines_digest_line dg2 body hnl]
  have hh2 : ¬pyStrip (dg2 ++ "\n") = dg := by
    rw [pyStrip_append_nl, hst]
    exact hne
  cases hem : em d with
  | none => simp [hh2]
  | some e =>
    by_cases h : (pyReadlines e).any (fun l => containsList "$OK$".data l.data) = true
    · simp [h, hh2]
    · simp [h]

theorem needs_processing_fresh {pm em : String → Option String} {d dg body : String}
    (hp : pm d = some (dg ++ "\n" ++ body))
    (hnl : ∀ c ∈ dg.data, c ≠ '\n') (hst : pyStrip dg = dg)
    (hem : em d = none) :
    needs_processing pm em d dg = false := by
  unfold needs_processing
  rw [hp, hem]
  dsimp only
  rw [pyReadlines_digest_line dg body hnl]
  simp [pyStrip_append_nl, hst]

theorem needs_processing_errors_bad {pm em : String → Option String} {d : String}
    (dg : String) {e : String} (hem : em d = some e)
    (hok : ∀ l ∈ pyReadlines e, containsList "$OK$".data l.data = false) :
    needs_processing pm em d dg = true := by
  unfold needs_processing
  rw [hem]
  have hany : (pyReadlines e).any (fun l => containsList "$OK$".data l.data) = false := by
    rw [List.any_eq_false]
    intro l hl
    simp [hok l hl]
  simp [hany]

/-- The cache-hit entry of a fresh processed artifact is the stored stripped
payload. -/
theorem p1entry_fresh {env : Env} {pm em : String → Option String} {s out : String}
    (hp : pm (sectionDate env s) = some (env.digest s ++ "\n" ++ (out ++ "\n")))
    (hnl : ∀ c ∈ (env.digest s).data, c ≠ '\n') (hst : pyStrip (env.digest s) = env.digest s)
    (hout : pyStrip out = out) (hne : out ≠ "")
    (hem : em (sectionDate env s) = none) :
    p1entry env pm em s = some (sectionDate env s, out) ∧ p1needs env pm em s = false := by
  have hneeds : p1needs env pm em s = false := by
    unfold p1needs
    exact needs_processing_fresh hp hnl hst hem
  refine ⟨?_, hneeds⟩
  unfold p1entry
  rw [if_neg (by simp [hneeds]), hp]
  dsimp only
  rw [pyReadlines_digest_line _ _ hnl]
  have hcc : concatStrings (pyReadlines (out ++ "\n")) = out ++ "\n" := concatStrings_pyReadlines _
  simp only [List.tail_cons, hcc]
  rw [pyStrip_append_nl, hout]
  simp [hne]

/-! ### `extract_task` in terms of the characterization layer -/

theorem extract_task_components (env : Env) (text : String) (fs0 : FS) :
    extract_task env text fs0 =
      ⟨fsAfter env.gen
         ⟨rawAfter env fs0.raw (split_markdown_sections text), fs0.processed, fs0.errors⟩
         (dispatchList env fs0 text),
       ((dispatchList env fs0 text).filter fun x => invokes x.1).map (fun x => x.2.2),
       (dispatchList env fs0 text).map (fun x => x.2.2),
       match collectResults
           ((dispatchList env fs0 text).map fun x => workerRes env.gen x.1 x.2.2) with
       | Except.error e => Except.error e
       | Except.ok collected =>
         Except.ok (mergeEntries
           ((split_markdown_sections text).filterMap (p1entry env fs0.processed fs0.errors)
             ++ collected))⟩ := by
  simp only [extract_task, phase1, phase2, dispatchList]
  rw [phase1_foldl, phase2_foldl]
  dsimp only
  simp only [List.nil_append]
  cases collectResults
      (List.map (fun x => workerRes env.gen x.1 x.2.2)
        (List.filterMap (p1disp env fs0.processed fs0.errors)
          (split_markdown_sections text))) <;> rfl

theorem extract_calls (env : Env) (text : String) (fs0 : FS) :
    (extract_task env text fs0).calls =
      ((dispatchList env fs0 text).filter fun x => invokes x.1).map fun x => x.2.2 := by
  rw [extract_task_components]

theorem extract_dispatched (env : Env) (text : String) (fs0 : FS) :
    (extract_task env text fs0).dispatched = (dispatchList env fs0 text).map fun x => x.2.2 := by
  rw [extract_task_components]

theorem extract_fs_errors (env : Env) (text : String) (fs0 : FS) :
    (extract_task env text fs0).fs.errors = fs0.errors := by
  rw [extract_task_components]
  exact fsAfter_errors env.gen _ _

theorem extract_fs_raw (env : Env) (text : String) (fs0 : FS) :
    (extract_task env text fs0).fs.raw =
      rawAfter env fs0.raw (split_markdown_sections text) := by
  rw [extract_task_components]
  exact fsAfter_raw env.gen _ _

/-! ### Dispatch-list utilities -/

theorem mem_dispatchList {env : Env} {fs0 : FS} {text : String}
    {x : String × String × String} :
    x ∈ dispatchList env fs0 text ↔
      ∃ s ∈ split_markdown_sections text,
        p1needs env fs0.processed fs0.errors s = true ∧
          x = (s, env.digest s, sectionDate env s) := by
  unfold dispatchList
  rw [List.mem_filterMap]
  constructor
  · rintro ⟨s, hs, hf⟩
    unfold p1disp at hf
    by_cases hn : p1needs env fs0.processed fs0.errors s = true
    · rw [if_pos hn] at hf
      exact ⟨s, hs, hn, (Option.some.inj hf).symm⟩
    · rw [if_neg hn] at hf
      exact absurd hf (by simp)
  · rintro ⟨s, hs, hn, hx⟩
    refine ⟨s, hs, ?_⟩
    unfold p1disp
    rw [if_pos hn, hx]

theorem p1disp_pos {env : Env} {pm em : String → Option String} {s : String}
    (h : p1needs env pm em s = true) :
    p1disp env pm em s = some (s, env.digest s, sectionDate env s) := by
  unfold p1disp
  rw [if_pos h]

theorem p1disp_neg {env : Env} {pm em : String → Option String} {s : String}
    (h : p1needs env pm em s = false) :
    p1disp env pm em s = none := by
  unfold p1disp
  rw [if_neg (by simp [h])]

theorem p1entry_none_of_needs {env : Env} {pm em : String → Option String} {s : String}
    (h : p1needs env pm em s = true) :
    p1entry env pm em s = none := by
  unfold p1entry
  rw [if_pos h]

theorem dispatchList_dates (env : Env) (fs0 : FS) (text : String) :
    (dispatchList env fs0 text).map (fun x => x.2.2) =
      ((split_markdown_sections text).filter
          (p1needs env fs0.processed fs0.errors)).map (sectionDate env) := by
  unfold dispatchList
  induction split_markdown_sections text with
  | nil => rfl
  | cons s rest ih =>
    rw [List.filterMap_cons, List.filter_cons]
    by_cases hn : p1needs env fs0.processed fs0.errors s = true
    · rw [p1disp_pos hn]
      simp only [hn, if_true, List.map_cons, ih]
    · have hnf : p1needs env fs0.processed fs0.errors s = false := by
        revert hn; cases p1needs env fs0.processed fs0.errors s <;> simp
      rw [p1disp_neg hnf]
      simp only [hnf, Bool.false_eq_true, if_false, ih]

theorem dispatchList_calls (env : Env) (fs0 : FS) (text : String) :
    (((dispatchList env fs0 text).filter fun x => invokes x.1).map fun x => x.2.2) =
      ((split_markdown_sections text).filter
          (fun s => p1needs env fs0.processed fs0.errors s && invokes s)).map
        (sectionDate env) := by
  unfold dispatchList
  induction split_markdown_sections text with
  | nil => rfl
  | cons s rest ih =>
    rw [List.filterMap_cons, List.filter_cons]
    by_cases hn : p1needs env fs0.processed fs0.errors s = true
    · rw [p1disp_pos hn]
      by_cases hv : invokes s = true
      · simp only [List.filter_cons, hv, hn, Bool.and_self, if_true, List.map_cons, ih]
      · have hvf : invokes s = false := by
          revert hv; cases invokes s <;> simp
        simp only [List.filter_cons, hvf, hn, Bool.and_false, Bool.false_eq_true, if_false, ih]
    · have hnf : p1needs env fs0.processed fs0.errors s = false := by
        revert hn; cases p1needs env fs0.processed fs0.errors s <;> simp
      rw [p1disp_neg hnf]
      simp only [hnf, Bool.false_and, Bool.false_eq_true, if_false, ih]

theorem filterMap_ext {α β : Type} {f g : α → Option β} :
    ∀ {l : List α}, (∀ x ∈ l, f x = g x) → l.filterMap f = l.filterMap g
  | [], _ => rfl
  | x :: rest, h => by
    rw [List.filterMap_cons, List.filterMap_cons, h x (by simp),
      filterMap_ext fun y hy => h y (by simp [hy])]

theorem filterMap_all_some {α β : Type} {f : α → Option β} {g : α → β} :
    ∀ {l : List α}, (∀ x ∈ l, f x = some (g x)) → l.filterMap f = l.map g
  | [], _ => rfl
  | x :: rest, h => by
    rw [List.filterMap_cons, List.map_cons, h x (by simp),
      filterMap_all_some fun y hy => h y (by simp [hy])]

theorem filterMap_all_none {α β : Type} {f : α → Option β} :
    ∀ {l : List α}, (∀ x ∈ l, f x = none) → l.filterMap f = []
  | [], _ => rfl
  | x :: rest, h => by
    rw [List.filterMap_cons, h x (by simp), filterMap_all_none fun y hy => h y (by simp [hy])]

/-! ### Raw artifacts after a run -/

theorem rawAfter_notmem (env : Env) :
    ∀ (S : List String) (m : String → Option String) (d : String),
      (∀ s ∈ S, sectionDate env s ≠ d) → rawAfter env m S d = m d
  | [], _, _, _ => rfl
  | s :: rest, m, d, h => by
    rw [rawAfter, rawAfter_notmem env rest _ d fun y hy => h y (by simp [hy])]
    simp only [upd]
    rw [if_neg fun hh => h s (by simp) hh.symm]

theorem rawAfter_unique (env : Env) :
    ∀ (S : List String) (m : String → Option String) (s : String),
      s ∈ S → (S.map (sectionDate env)).Nodup →
      rawAfter env m S (sectionDate env s) = some s
  | [], _, _, hmem, _ => absurd hmem (by simp)
  | t :: rest, m, s, hmem, hnd => by
    simp only [List.map_cons, List.nodup_cons] at hnd
    rcases List.mem_cons.mp hmem with h1 | h1
    · subst h1
      have hno : ∀ y ∈ rest, sectionDate env y ≠ sectionDate env s := by
        intro y hy heq
        exact hnd.1 (List.mem_map.mpr ⟨y, hy, heq⟩)
      rw [rawAfter, rawAfter_notmem env rest _ _ hno]
      simp [upd]
    · rw [rawAfter, rawAfter_unique env rest _ s h1 hnd.2]

/-! ### Processed artifacts after a run -/

theorem extract_processed_other (env : Env) (text : String) (fs0 : FS) (d : String)
    (h : ∀ s ∈ split_markdown_sections text, sectionDate env s ≠ d) :
    (extract_task env text fs0).fs.processed d = fs0.processed d := by
  rw [extract_task_components]
  dsimp only
  apply fsAfter_processed_notmem
  intro x hx heq
  rcases mem_dispatchList.mp hx with ⟨t, ht, _, hxe⟩
  rw [hxe] at heq
  exact h t ht heq

theorem extract_processed_hit (env : Env) (text : String) (fs0 : FS) {s : String}
    (hs : s ∈ split_markdown_sections text)
    (hn : p1needs env fs0.processed fs0.errors s = false)
    (hnd : ((split_markdown_sections text).map (sectionDate env)).Nodup) :
    (extract_task env text fs0).fs.processed (sectionDate env s) =
      fs0.processed (sectionDate env s) := by
  rw [extract_task_components]
  dsimp only
  apply fsAfter_processed_notmem
  intro x hx heq
  rcases mem_dispatchList.mp hx with ⟨t, ht, hneed, hxe⟩
  have hdt : sectionDate env t = sectionDate env s := by
    rw [hxe] at heq
    exact heq
  have hts : t = s := List.inj_on_of_nodup_map hnd ht hs hdt
  subst hts
  rw [hn] at hneed
  exact absurd hneed (by simp)

theorem extract_processed_dispatched (env : Env) (text : String) (fs0 : FS) {s : String}
    (hs : s ∈ split_markdown_sections text)
    (hn : p1needs env fs0.processed fs0.errors s = true)
    (hnd : ((split_markdown_sections text).map (sectionDate env)).Nodup) :
    (extract_task env text fs0).fs.processed (sectionDate env s) =
      match writtenContent env.gen s (env.digest s) with
      | some c => some c
      | none => fs0.processed (sectionDate env s) := by
  rw [extract_task_components]
  dsimp only
  have hmem : (s, env.digest s, sectionDate env s) ∈ dispatchList env fs0 text :=
    mem_dispatchList.mpr ⟨s, hs, hn, rfl⟩
  have hnd2 : ((dispatchList env fs0 text).map fun x => x.2.2).Nodup := by
    rw [dispatchList_dates]
    exact List.Nodup.sublist ((List.filter_sublist _).map (sectionDate env)) hnd
  exact fsAfter_processed_unique env.gen _ _ s (env.digest s) (sectionDate env s) hmem hnd2

/-! ### Run outcome -/

theorem workerRes_ne_error {gen : String → Except Unit String} {s d : String}
    (h : invokes s = true → gen s ≠ Except.error ()) :
    workerRes gen s d ≠ Except.error () := by
  unfold workerRes
  rw [process_section_eq]
  by_cases hi : invokes s = true
  · rw [if_pos hi]
    cases hg : gen s with
    | error e => cases e; exact absurd hg (h hi)
    | ok r =>
      by_cases hr : pyStrip r = "" <;> simp [hr]
  · rw [if_neg hi]
    simp

theorem genAccepts_spec {env : Env} {s : String} (h : genAccepts env s = true) :
    ∃ r, env.gen s = Except.ok r ∧ pyStrip r ≠ "" := by
  unfold genAccepts at h
  cases hg : env.gen s with
  | error e => rw [hg] at h; simp at h
  | ok r =>
    rw [hg] at h
    simp only [Bool.not_eq_true', decide_eq_false_iff_not] at h
    exact ⟨r, rfl, h⟩

theorem workerEntry_eq_acceptedEntry (env : Env) (s : String) :
    workerEntry env.gen s (sectionDate env s) = acceptedEntry env s := by
  unfold workerEntry acceptedEntry workerRes
  rw [process_section_eq]
  by_cases hi : invokes s = true
  · rw [if_pos hi, if_pos hi]
    cases hg : env.gen s with
    | error e => rfl
    | ok r =>
      by_cases hr : pyStrip r = ""
      · simp [hr]
      · simp [hr, pyStrip_idem]
  · rw [if_neg hi, if_neg hi]

theorem collected_entries (gen : String → Except Unit String)
    (tp : List (String × String × String))
    (h : ∀ r ∈ tp.map fun x => workerRes gen x.1 x.2.2, r ≠ Except.error ()) :
    collectResults (tp.map fun x => workerRes gen x.1 x.2.2) =
      Except.ok (tp.filterMap fun x => workerEntry gen x.1 x.2.2) := by
  rw [collectResults_ok _ h, List.filterMap_map]
  exact congrArg Except.ok (filterMap_ext fun x _ => rfl)

theorem extract_outcome_ok (env : Env) (text : String) (fs0 : FS)
    (h : ∀ s ∈ split_markdown_sections text, invokes s = true → env.gen s ≠ Except.error ()) :
    (extract_task env text fs0).outcome =
      Except.ok (mergeEntries
        ((split_markdown_sections text).filterMap (p1entry env fs0.processed fs0.errors) ++
          ((dispatchList env fs0 text).filterMap fun x => workerEntry env.gen x.1 x.2.2))) := by
  have hne : ∀ r ∈ (dispatchList env fs0 text).map fun x => workerRes env.gen x.1 x.2.2,
      r ≠ Except.error () := by
    intro r hr
    rw [List.mem_map] at hr
    obtain ⟨x, hx, hxe⟩ := hr
    rcases mem_dispatchList.mp hx with ⟨t, ht, _, hte⟩
    rw [← hxe, hte]
    exact workerRes_ne_error fun hi => h t ht hi
  rw [extract_task_components]
  dsimp only
  rw [collected_entries env.gen _ hne]

theorem mapped_workerEntry (env : Env) :
    ∀ S : List String,
      (S.map fun s => (s, env.digest s, sectionDate env s)).filterMap
          (fun x => workerEntry env.gen x.1 x.2.2) =
        S.filterMap (acceptedEntry env)
  | [] => rfl
  | s :: rest => by
    rw [List.map_cons, List.filterMap_cons, List.filterMap_cons,
      mapped_workerEntry env rest]
    dsimp only
    rw [workerEntry_eq_acceptedEntry env s]

/-- A run in which no section has a processed artifact yet: everything is
dispatched, the service is invoked exactly on the sections that reach the
call, and the outcome collects the accepted entries. -/
theorem extract_first_run (env : Env) (text : String) (fs0 : FS)
    (hmiss : ∀ s ∈ split_markdown_sections text,
      fs0.processed (sectionDate env s) = none)
    (hok : ∀ s ∈ split_markdown_sections text,
      invokes s = true → env.gen s ≠ Except.error ()) :
    (extract_task env text fs0).calls =
        ((split_markdown_sections text).filter invokes).map (sectionDate env) ∧
      (extract_task env text fs0).outcome =
        Except.ok (mergeEntries
          ((split_markdown_sections text).filterMap (acceptedEntry env))) := by
  have hneeds : ∀ s ∈ split_markdown_sections text,
      p1needs env fs0.processed fs0.errors s = true := fun s hs =>
    needs_processing_none (env.digest s) (hmiss s hs)
  constructor
  · rw [extract_calls, dispatchList_calls,
      List.filter_congr fun s hs => by rw [hneeds s hs, Bool.true_and]]
  · rw [extract_outcome_ok env text fs0 hok]
    have h1 : (split_markdown_sections text).filterMap
        (p1entry env fs0.processed fs0.errors) = [] :=
      filterMap_all_none fun s hs => p1entry_none_of_needs (hneeds s hs)
    have h2 : dispatchList env fs0 text =
        (split_markdown_sections text).map fun s => (s, env.digest s, sectionDate env s) := by
      unfold dispatchList
      exact filterMap_all_some fun s hs => p1disp_pos (hneeds s hs)
    rw [h1, h2, List.nil_append, mapped_workerEntry env (split_markdown_sections text)]

/-! ### C1: idempotence on well-behaved inputs -/

/-- C1 (amended).  Running `extract_task` twice on an unchanged input whose
sections have pairwise-distinct date keys, starting from an empty cache,
with a digest that is whitespace-free (as a sha256 hexdigest is) and a
service that returns a non-blank response for every section it is invoked
on, performs zero service invocations on the second run and produces the
same outcome (hence byte-identical curated output).  The original claim's
universal form fails for duplicate date keys (see the counterexample):
sections that short-circuit are re-dispatched, not cache hits, but still
invoke no service. -/
theorem extract_idempotent_on_distinct_keys (env : Env) (text : String)
    (hwf : ∀ u : String, (∀ c ∈ (env.digest u).data, c ≠ '\n') ∧
      pyStrip (env.digest u) = env.digest u)
    (hnd : ((split_markdown_sections text).map (sectionDate env)).Nodup)
    (hacc : ∀ s ∈ split_markdown_sections text, invokes s = true → genAccepts env s = true) :
    (extract_task env text (extract_task env text FS.empty).fs).calls = [] ∧
      (extract_task env text (extract_task env text FS.empty).fs).outcome =
        (extract_task env text FS.empty).outcome ∧
      (extract_task env text FS.empty).outcome.isOk = true := by
  have hok : ∀ s ∈ split_markdown_sections text,
      invokes s = true → env.gen s ≠ Except.error () := by
    intro s hs hi hcon
    obtain ⟨r, hr, _⟩ := genAccepts_spec (hacc s hs hi)
    rw [hcon] at hr
    exact Except.noConfusion hr
  have hrun1 := extract_first_run env text FS.empty (fun _ _ => rfl) hok
  have herr1 : ∀ d, (extract_task env text FS.empty).fs.errors d = none := fun d =>
    congrFun (extract_fs_errors env text FS.empty) d
  have hneeds1 : ∀ s ∈ split_markdown_sections text,
      p1needs env FS.empty.processed FS.empty.errors s = true :=
    fun s _ => needs_processing_none (env.digest s) rfl
  have hproc1 : ∀ s ∈ split_markdown_sections text,
      (extract_task env text FS.empty).fs.processed (sectionDate env s) =
        match writtenContent env.gen s (env.digest s) with
        | some c => some c
        | none => none :=
    fun s hs => extract_processed_dispatched env text FS.empty hs (hneeds1 s hs) hnd
  have hfresh : ∀ s ∈ split_markdown_sections text, invokes s = true →
      ∃ r, env.gen s = Except.ok r ∧ pyStrip r ≠ "" ∧
        (extract_task env text FS.empty).fs.processed (sectionDate env s) =
          some (env.digest s ++ "\n" ++ (pyStrip r ++ "\n")) := by
    intro s hs hi
    obtain ⟨r, hgr, hrne⟩ := genAccepts_spec (hacc s hs hi)
    refine ⟨r, hgr, hrne, ?_⟩
    have hwc := (workerRes_accepted r hi hgr hrne (sectionDate env s) (env.digest s)).2
    rw [hproc1 s hs, hwc]
    dsimp only
    rw [string_append_assoc (env.digest s ++ "\n") (pyStrip r) "\n"]
  have hinert1 : ∀ s ∈ split_markdown_sections text, invokes s = false →
      (extract_task env text FS.empty).fs.processed (sectionDate env s) = none := by
    intro s hs hif
    have hwc := (workerRes_inert env.gen hif (sectionDate env s) (env.digest s)).2
    rw [hproc1 s hs, hwc]
  have hclass : ∀ s ∈ split_markdown_sections text,
      p1needs env (extract_task env text FS.empty).fs.processed
        (extract_task env text FS.empty).fs.errors s = !invokes s := by
    intro s hs
    by_cases hi : invokes s = true
    · obtain ⟨r, _, _, hp⟩ := hfresh s hs hi
      rw [hi, Bool.not_true]
      unfold p1needs
      exact needs_processing_fresh hp (hwf s).1 (hwf s).2 (herr1 (sectionDate env s))
    · have hif : invokes s = false := by revert hi; cases invokes s <;> simp
      rw [hif, Bool.not_false]
      unfold p1needs
      exact needs_processing_none (env.digest s) (hinert1 s hs hif)
  refine ⟨?_, ?_, ?_⟩
  · rw [extract_calls, dispatchList_calls]
    have hfil : ((split_markdown_sections text).filter fun s =>
        p1needs env (extract_task env text FS.empty).fs.processed
          (extract_task env text FS.empty).fs.errors s && invokes s) = [] := by
      rw [List.filter_eq_nil_iff]
      intro s hs
      rw [hclass s hs]
      cases invokes s <;> simp
    rw [hfil]
    rfl
  · rw [extract_outcome_ok env text _ hok]
    have hA : (split_markdown_sections text).filterMap
        (p1entry env (extract_task env text FS.empty).fs.processed
          (extract_task env text FS.empty).fs.errors) =
        (split_markdown_sections text).filterMap (acceptedEntry env) := by
      apply filterMap_ext
      intro s hs
      by_cases hi : invokes s = true
      · obtain ⟨r, hgr, hrne, hp⟩ := hfresh s hs hi
        have hpe := p1entry_fresh hp (hwf s).1 (hwf s).2 (pyStrip_idem r) hrne
          (herr1 (sectionDate env s))
        rw [hpe.1]
        unfold acceptedEntry
        rw [if_pos hi, hgr]
        dsimp only
        rw [if_neg hrne]
      · have hn : p1needs env (extract_task env text FS.empty).fs.processed
            (extract_task env text FS.empty).fs.errors s = true := by
          rw [hclass s hs]
          revert hi
          cases invokes s <;> simp
        rw [p1entry_none_of_needs hn]
        unfold acceptedEntry
        rw [if_neg hi]
    have hB : (dispatchList env (extract_task env text FS.empty).fs text).filterMap
        (fun x => workerEntry env.gen x.1 x.2.2) = [] := by
      apply filterMap_all_none
      intro x hx
      rcases mem_dispatchList.mp hx with ⟨t, ht, hneed, hte⟩
      rw [hclass t ht] at hneed
      have hit : invokes t = false := by
        revert hneed
        cases invokes t <;> simp
      rw [hte]
      dsimp only
      unfold workerEntry
      rw [(workerRes_inert env.gen hit (sectionDate env t) (env.digest t)).1]
    rw [hA, hB, List.append_nil, hrun1.2]
  · rw [hrun1.2]
    rfl

theorem extract_idempotent_on_distinct_keys_witness :
    (((split_markdown_sections "### 2023-01-02\nalpha\n\n### 2023-01-01\nbeta").map
        (sectionDate envA)).Nodup) ∧
      (extract_task envA "### 2023-01-02\nalpha\n\n### 2023-01-01\nbeta"
          (extract_task envA "### 2023-01-02\nalpha\n\n### 2023-01-01\nbeta"
            FS.empty).fs).calls = [] :=
  ⟨by decide,
   (extract_idempotent_on_distinct_keys envA "### 2023-01-02\nalpha\n\n### 2023-01-01\nbeta"
     (fun u => ⟨digestModel_no_nl u, digestModel_strip u⟩) (by decide) (by decide)).1⟩

/-! ### Entries of the merged document -/

theorem acceptedEntry_key {env : Env} {t : String} {e : String × String}
    (h : acceptedEntry env t = some e) : e.1 = sectionDate env t := by
  unfold acceptedEntry at h
  by_cases hit : invokes t = true
  · rw [if_pos hit] at h
    cases hgt : env.gen t with
    | error ee => rw [hgt] at h; exact absurd h (by simp)
    | ok rt =>
      rw [hgt] at h
      dsimp only at h
      by_cases hrt : pyStrip rt = ""
      · rw [if_pos hrt] at h; exact absurd h (by simp)
      · rw [if_neg hrt] at h
        rw [← Option.some.inj h]
  · rw [if_neg hit] at h; exact absurd h (by simp)

theorem acceptedEntry_blank {env : Env} {t r : String}
    (hg : env.gen t = Except.ok r) (hr : pyStrip r = "") :
    acceptedEntry env t = none := by
  unfold acceptedEntry
  by_cases hit : invokes t = true
  · rw [if_pos hit, hg]
    dsimp only
    rw [if_pos hr]
  · rw [if_neg hit]

theorem acceptedEntry_inert {env : Env} {t : String} (hit : invokes t = false) :
    acceptedEntry env t = none := by
  unfold acceptedEntry
  rw [if_neg (by simp [hit])]

/-- A section whose accepted entry is `none` is absent from the merged
collection, when date keys are distinct. -/
theorem date_not_in_merged (env : Env) (S : List String) (s0 : String)
    (hs0 : s0 ∈ S) (hnd : (S.map (sectionDate env)).Nodup)
    (h0 : acceptedEntry env s0 = none) :
    sectionDate env s0 ∉ (mergeEntries (S.filterMap (acceptedEntry env))).map Prod.fst := by
  intro hmem
  rw [List.mem_map] at hmem
  obtain ⟨e, he, hee⟩ := hmem
  have hperm := List.perm_insertionSort entryGe (S.filterMap (acceptedEntry env))
  have he2 : e ∈ S.filterMap (acceptedEntry env) := hperm.mem_iff.mp he
  rw [List.mem_filterMap] at he2
  obtain ⟨t, ht, hte⟩ := he2
  have hkey : e.1 = sectionDate env t := acceptedEntry_key hte
  have hts : t = s0 := List.inj_on_of_nodup_map hnd ht hs0 (by rw [← hkey, hee])
  subst hts
  rw [h0] at hte
  exact absurd hte (by simp)

/-! ### C3: no fatal abort on malformed input -/

/-- C3 (amended).  The code performs no duplicate-date detection and no
unparseable-date abort: whenever the service itself does not raise, the run
completes successfully regardless of duplicate date keys, and a section
header in which no whitespace-delimited token parses as a date is silently
assigned the label `unknown` instead of failing the run.  (The
counterexample shows a duplicate-key input being dispatched twice, with two
service invocations and a successful outcome.) -/
theorem extract_never_aborts_and_unknown_label (env : Env) (text : String) (fs0 : FS)
    (hok : ∀ s : String, (env.gen s).isOk = true) :
    (extract_task env text fs0).outcome.isOk = true ∧
      ∀ s : String,
        (splitWs (pyStrip (lstripHash
            ((pySplitlines (pyStrip s)).headD "")))).findSome? env.dateParse = none →
          extract_date_from_section env.dateParse s = "unknown" := by
  have hne : ∀ s ∈ split_markdown_sections text, invokes s = true →
      env.gen s ≠ Except.error () := by
    intro s _ _ hcon
    have := hok s
    rw [hcon] at this
    simp [Except.isOk, Except.toBool] at this
  constructor
  · rw [extract_outcome_ok env text fs0 hne]
    rfl
  · intro s hnone
    simp only [extract_date_from_section, hnone]

theorem extract_never_aborts_and_unknown_label_witness :
    (extract_task envA "### 2023-01-01\na\n### 2023-01-01\nb" FS.empty).outcome.isOk = true ∧
      extract_date_from_section canonicalDateParse "hello world\nno date at all" = "unknown" :=
  ⟨(extract_never_aborts_and_unknown_label envA "### 2023-01-01\na\n### 2023-01-01\nb"
      FS.empty fun _ => rfl).1,
   (extract_never_aborts_and_unknown_label envA "x" FS.empty fun _ => rfl).2
     "hello world\nno date at all" (by decide)⟩

/-! ### C2: the worker has a single generate attempt and no validation -/

/-- C2 (amended).  The extract pipeline has no validation stage and a retry
budget of one: a worker whose service response is never accepted (here: a
blank response, which the code treats as falsy) performs exactly one
generate invocation — not three generate+validate attempt pairs — writes no
processed artifact for its date key, and the dispatcher still completes
with that section absent from the final collection. -/
theorem worker_failure_single_generate_attempt (env : Env) (text s0 r0 : String)
    (hs0 : s0 ∈ split_markdown_sections text)
    (hnd : ((split_markdown_sections text).map (sectionDate env)).Nodup)
    (hi : invokes s0 = true)
    (hg : env.gen s0 = Except.ok r0) (hr : pyStrip r0 = "")
    (hok : ∀ s ∈ split_markdown_sections text, invokes s = true →
      env.gen s ≠ Except.error ()) :
    (extract_task env text FS.empty).calls.count (sectionDate env s0) = 1 ∧
      (extract_task env text FS.empty).fs.processed (sectionDate env s0) = none ∧
      ∃ es, (extract_task env text FS.empty).outcome = Except.ok es ∧
        sectionDate env s0 ∉ es.map Prod.fst := by
  have hrun := extract_first_run env text FS.empty (fun _ _ => rfl) hok
  refine ⟨?_, ?_, ?_⟩
  · rw [hrun.1]
    have hmem : sectionDate env s0 ∈
        ((split_markdown_sections text).filter invokes).map (sectionDate env) :=
      List.mem_map.mpr ⟨s0, List.mem_filter.mpr ⟨hs0, hi⟩, rfl⟩
    have hnd2 : (((split_markdown_sections text).filter invokes).map
        (sectionDate env)).Nodup :=
      List.Nodup.sublist ((List.filter_sublist _).map _) hnd
    exact List.count_eq_one_of_mem hnd2 hmem
  · have hneeds : p1needs env FS.empty.processed FS.empty.errors s0 = true :=
      needs_processing_none (env.digest s0) rfl
    rw [extract_processed_dispatched env text FS.empty hs0 hneeds hnd,
      (workerRes_blank r0 hg hr (sectionDate env s0) (env.digest s0)).2]
    rfl
  · exact ⟨_, hrun.2,
      date_not_in_merged env _ s0 hs0 hnd (acceptedEntry_blank hg hr)⟩

theorem worker_failure_single_generate_attempt_witness :
    (extract_task envBlank "### 2023-02-02\nmigraine all day" FS.empty).calls.count
        "2023-02-02" = 1 ∧
      (extract_task envBlank "### 2023-02-02\nmigraine all day" FS.empty).fs.processed
        "2023-02-02" = none :=
  ⟨(worker_failure_single_generate_attempt envBlank "### 2023-02-02\nmigraine all day"
      "### 2023-02-02\nmigraine all day" ""
      (by decide) (by decide) (by decide) rfl rfl
      (fun s _ _ hcon => Except.noConfusion hcon)).1,
   (worker_failure_single_generate_attempt envBlank "### 2023-02-02\nmigraine all day"
      "### 2023-02-02\nmigraine all day" ""
      (by decide) (by decide) (by decide) rfl rfl
      (fun s _ _ hcon => Except.noConfusion hcon)).2.1⟩

/-! ### C4: isolation under value failures; exceptions abort -/

/-- C4 (amended).  When workers fail only by returning a failure value (the
service does not raise), failure isolation is per-section: the run
completes, the failed section is dropped from the collection, and every
sibling's accepted entry is still present.  When a worker raises an
exception, sibling workers still run and persist their artifacts, but the
exception propagates and the whole run fails before the curated document is
written (see the counterexample). -/
theorem dispatcher_isolation_value_failures (env : Env) (text s0 r0 : String)
    (hs0 : s0 ∈ split_markdown_sections text)
    (hnd : ((split_markdown_sections text).map (sectionDate env)).Nodup)
    (hi : invokes s0 = true)
    (hg : env.gen s0 = Except.ok r0) (hr : pyStrip r0 = "")
    (hok : ∀ s ∈ split_markdown_sections text, invokes s = true →
      env.gen s ≠ Except.error ()) :
    ∃ es, (extract_task env text FS.empty).outcome = Except.ok es ∧
      sectionDate env s0 ∉ es.map Prod.fst ∧
      ∀ s ∈ split_markdown_sections text, ∀ e, acceptedEntry env s = some e → e ∈ es := by
  have hrun := extract_first_run env text FS.empty (fun _ _ => rfl) hok
  refine ⟨_, hrun.2,
    date_not_in_merged env _ s0 hs0 hnd (acceptedEntry_blank hg hr), ?_⟩
  intro s hs e he
  have hperm := List.perm_insertionSort entryGe
    ((split_markdown_sections text).filterMap (acceptedEntry env))
  exact hperm.mem_iff.mpr (List.mem_filterMap.mpr ⟨s, hs, he⟩)

theorem dispatcher_isolation_value_failures_witness :
    ∃ es, (extract_task envBlank "### 2023-02-02\nmigraine all day" FS.empty).outcome =
        Except.ok es ∧
      "2023-02-02" ∉ es.map Prod.fst ∧
      ∀ s ∈ split_markdown_sections "### 2023-02-02\nmigraine all day",
        ∀ e, acceptedEntry envBlank s = some e → e ∈ es :=
  dispatcher_isolation_value_failures envBlank "### 2023-02-02\nmigraine all day"
    "### 2023-02-02\nmigraine all day" ""
    (by decide) (by decide) (by decide) rfl rfl
    (fun s _ _ hcon => Except.noConfusion hcon)

/-! ### C9: a failed audit forces regeneration -/

/-- C9.  If the errors artifact for a section's date key exists and no line
of it contains the sentinel `$OK$`, the section is marked for reprocessing
even though the processed artifact's first line equals the section's
current content digest: the service is re-invoked for that date key and the
processed artifact is rewritten. -/
theorem failed_audit_forces_reprocessing (env : Env) (text : String) (fs0 : FS)
    (s e body r : String)
    (hs : s ∈ split_markdown_sections text)
    (hnd : ((split_markdown_sections text).map (sectionDate env)).Nodup)
    (herr : fs0.errors (sectionDate env s) = some e)
    (hok : ∀ l ∈ pyReadlines e, containsList "$OK$".data l.data = false)
    (hproc : fs0.processed (sectionDate env s) = some (env.digest s ++ "\n" ++ body))
    (hi : invokes s = true) (hg : env.gen s = Except.ok r) (hr : pyStrip r ≠ "") :
    p1needs env fs0.processed fs0.errors s = true ∧
      sectionDate env s ∈ (extract_task env text fs0).calls ∧
      (extract_task env text fs0).fs.processed (sectionDate env s) =
        some (env.digest s ++ "\n" ++ pyStrip r ++ "\n") := by
  have hneeds : p1needs env fs0.processed fs0.errors s = true := by
    unfold p1needs
    exact needs_processing_errors_bad (env.digest s) herr hok
  refine ⟨hneeds, ?_, ?_⟩
  · rw [extract_calls, dispatchList_calls]
    refine List.mem_map.mpr ⟨s, List.mem_filter.mpr ⟨hs, ?_⟩, rfl⟩
    rw [hneeds, hi]
    rfl
  · rw [extract_processed_dispatched env text fs0 hs hneeds hnd,
      (workerRes_accepted r hi hg hr (sectionDate env s) (env.digest s)).2]

theorem failed_audit_forces_reprocessing_witness :
    p1needs envA
        (upd (fun _ => none) "2023-01-01"
          (digestModel "### 2023-01-01\nslept badly" ++ "\n" ++ "- old entry\n"))
        (upd (fun _ => none) "2023-01-01" "h1;h2\nmissing: sleep data")
        "### 2023-01-01\nslept badly" = true ∧
      "2023-01-01" ∈ (extract_task envA "### 2023-01-01\nslept badly"
        ⟨fun _ => none,
         upd (fun _ => none) "2023-01-01"
           (digestModel "### 2023-01-01\nslept badly" ++ "\n" ++ "- old entry\n"),
         upd (fun _ => none) "2023-01-01" "h1;h2\nmissing: sleep data"⟩).calls :=
  ⟨(failed_audit_forces_reprocessing envA "### 2023-01-01\nslept badly"
      ⟨fun _ => none,
       upd (fun _ => none) "2023-01-01"
         (digestModel "### 2023-01-01\nslept badly" ++ "\n" ++ "- old entry\n"),
       upd (fun _ => none) "2023-01-01" "h1;h2\nmissing: sleep data"⟩
      "### 2023-01-01\nslept badly" "h1;h2\nmissing: sleep data" "- old entry\n"
      ("- entry for " ++ "### 2023-01-01\nslept badly")
      (by decide) (by decide) (by decide) (by decide) (by decide) (by decide) rfl
      (by decide)).1,
   (failed_audit_forces_reprocessing envA "### 2023-01-01\nslept badly"
      ⟨fun _ => none,
       upd (fun _ => none) "2023-01-01"
         (digestModel "### 2023-01-01\nslept badly" ++ "\n" ++ "- old entry\n"),
       upd (fun _ => none) "2023-01-01" "h1;h2\nmissing: sleep data"⟩
      "### 2023-01-01\nslept badly" "h1;h2\nmissing: sleep data" "- old entry\n"
      ("- entry for " ++ "### 2023-01-01\nslept badly")
      (by decide) (by decide) (by decide) (by decide) (by decide) (by decide) rfl
      (by decide)).2.1⟩

/-! ### C10: preamble handling -/

/-- C10 (amended).  A non-blank preamble whose first line does not start
with `###` is silently dropped: split returns it as a section, its raw
artifact is written under its extracted date key, but no service invocation
occurs for it, no processed artifact is written, and it is absent from the
curated document.  (The original claim's parenthetical fails when the
preamble's first line does start with `###` without being a date header —
such a preamble does invoke the service; see the counterexample.) -/
theorem non_hash_preamble_dropped_silently (env : Env) (text s0 : String)
    (rest : List String)
    (hsplit : split_markdown_sections text = s0 :: rest)
    (hnd : ((split_markdown_sections text).map (sectionDate env)).Nodup)
    (hpre : startsWithList "###".data
      ((pySplitlines (pyStrip s0)).headD "").data = false)
    (hok : ∀ s ∈ split_markdown_sections text, invokes s = true →
      env.gen s ≠ Except.error ()) :
    invokes s0 = false ∧
      (extract_task env text FS.empty).fs.raw (sectionDate env s0) = some s0 ∧
      (extract_task env text FS.empty).fs.processed (sectionDate env s0) = none ∧
      sectionDate env s0 ∉ (extract_task env text FS.empty).calls ∧
      ∃ es, (extract_task env text FS.empty).outcome = Except.ok es ∧
        sectionDate env s0 ∉ es.map Prod.fst := by
  have hs0 : s0 ∈ split_markdown_sections text := by rw [hsplit]; simp
  have hinv : invokes s0 = false := by
    unfold invokes
    dsimp only
    rw [hpre]
    simp
  have hrun := extract_first_run env text FS.empty (fun _ _ => rfl) hok
  refine ⟨hinv, ?_, ?_, ?_, ?_⟩
  · rw [extract_fs_raw]
    exact rawAfter_unique env _ _ s0 hs0 hnd
  · have hneeds : p1needs env FS.empty.processed FS.empty.errors s0 = true :=
      needs_processing_none (env.digest s0) rfl
    rw [extract_processed_dispatched env text FS.empty hs0 hneeds hnd,
      (workerRes_inert env.gen hinv (sectionDate env s0) (env.digest s0)).2]
    rfl
  · rw [hrun.1]
    intro hmem
    rw [List.mem_map] at hmem
    obtain ⟨t, ht, hte⟩ := hmem
    rw [List.mem_filter] at ht
    have hts : t = s0 := List.inj_on_of_nodup_map hnd ht.1 hs0 hte
    subst hts
    rw [hinv] at ht
    exact absurd ht.2 (by simp)
  · exact ⟨_, hrun.2, date_not_in_merged env _ s0 hs0 hnd (acceptedEntry_inert hinv)⟩

theorem non_hash_preamble_dropped_silently_witness :
    invokes "intro notes" = false ∧
      (extract_task envA "intro notes\n### 2023-01-01\nbody" FS.empty).fs.raw
        (sectionDate envA "intro notes") = some "intro notes" ∧
      sectionDate envA "intro notes" ∉
        (extract_task envA "intro notes\n### 2023-01-01\nbody" FS.empty).calls :=
  ⟨(non_hash_preamble_dropped_silently envA "intro notes\n### 2023-01-01\nbody"
      "intro notes" ["### 2023-01-01\nbody"] (by decide) (by decide) (by decide)
      (fun s _ _ hcon => Except.noConfusion hcon)).1,
   (non_hash_preamble_dropped_silently envA "intro notes\n### 2023-01-01\nbody"
      "intro notes" ["### 2023-01-01\nbody"] (by decide) (by decide) (by decide)
      (fun s _ _ hcon => Except.noConfusion hcon)).2.1,
   (non_hash_preamble_dropped_silently envA "intro notes\n### 2023-01-01\nbody"
      "intro notes" ["### 2023-01-01\nbody"] (by decide) (by decide) (by decide)
      (fun s _ _ hcon => Except.noConfusion hcon)).2.2.2.1⟩

/-! ### C5: change sensitivity operates at whole-file granularity -/

theorem main_extract_out (env : Env) (store : Store) (text : String) :
    (main_extract env store text).1 =
      extract_task env text (store (get_file_short_hash env.digest text)) := rfl

theorem main_extract_store (env : Env) (store : Store) (text k : String) :
    (main_extract env store text).2 k =
      if k = get_file_short_hash env.digest text
      then (main_extract env store text).1.fs else store k := rfl

/-- C5 (amended).  Cache sensitivity acts at whole-file granularity before
any per-section check runs: `main` keys the data directory by a digest of
the input file, so mutating one section's body — by a single byte or many —
changes the file digest and re-homes the next run to a directory that has
never been written.  That run is identical to a first run from an empty
cache (every section is dispatched afresh, siblings included, with a single
generate call each and no validation stage), while the previous input's
artifacts persist unchanged under the old directory key.  The per-section
digest cache of `extract_task` takes effect only between runs on
byte-identical input files. -/
theorem edit_rehomes_cache_to_fresh_directory (env : Env) (t1 t2 : String)
    (store : Store)
    (hfresh : store (get_file_short_hash env.digest t2) = FS.empty)
    (hne : env.digest t1 ≠ env.digest t2) :
    (main_extract env (main_extract env store t1).2 t2).1 =
        extract_task env t2 FS.empty ∧
      (main_extract env (main_extract env store t1).2 t2).2
          (get_file_short_hash env.digest t1) =
        (main_extract env store t1).1.fs := by
  have hkey : get_file_short_hash env.digest t2 ≠ get_file_short_hash env.digest t1 :=
    fun h => hne h.symm
  constructor
  · rw [main_extract_out, main_extract_store, if_neg hkey, hfresh]
  · rw [main_extract_store, if_neg fun h => hkey h.symm, main_extract_store, if_pos rfl]

theorem edit_rehomes_cache_to_fresh_directory_witness :
    envA.digest "### 2023-01-01\na" ≠ envA.digest "### 2023-01-01\nb" ∧
      (main_extract envA (main_extract envA Store.empty "### 2023-01-01\na").2
          "### 2023-01-01\nb").1 =
        extract_task envA "### 2023-01-01\nb" FS.empty :=
  ⟨by decide,
   (edit_rehomes_cache_to_fresh_directory envA "### 2023-01-01\na" "### 2023-01-01\nb"
      Store.empty rfl (by decide)).1⟩

/-! ### C6: what split actually partitions -/

theorem splitAux_flatten :
    ∀ (cs : List Char) (atStart : Bool) (acc : List Char),
      (splitAux cs atStart acc).flatten = acc.reverse ++ cs
  | [], _, acc => by simp [splitAux]
  | c :: rest, atStart, acc => by
    rw [splitAux]
    by_cases h : (atStart && headerStart (c :: rest) && !acc.isEmpty) = true
    · rw [if_pos h]
      rw [List.flatten_cons, splitAux_flatten rest _ [c]]
      simp
    · rw [if_neg h]
      rw [splitAux_flatten rest _ (c :: acc)]
      simp

theorem headerStart_shape {cs : List Char} (h : headerStart cs = true) :
    ∃ r, cs = '#' :: '#' :: '#' :: r := by
  cases cs with
  | nil => simp [headerStart] at h
  | cons a t1 =>
    cases t1 with
    | nil => simp [headerStart] at h
    | cons b t2 =>
      cases t2 with
      | nil => simp [headerStart] at h
      | cons c r =>
        simp only [headerStart, Bool.and_eq_true, decide_eq_true_eq] at h
        exact ⟨r, by rw [h.1.1.1, h.1.1.2, h.1.2]⟩

theorem splitAux_length :
    ∀ (cs : List Char) (atStart : Bool) (acc : List Char), acc ≠ [] →
      (splitAux cs atStart acc).length = 1 + countBoundaries cs atStart
  | [], _, _, _ => by simp [splitAux, countBoundaries]
  | c :: rest, atStart, acc, hacc => by
    rw [splitAux, countBoundaries]
    by_cases hb : (atStart && headerStart (c :: rest)) = true
    · have hne : (!acc.isEmpty) = true := by
        cases hae : acc.isEmpty
        · rfl
        · exact absurd (List.isEmpty_iff.mp hae) hacc
      rw [if_pos (by rw [hb, hne]; decide), if_pos hb, List.length_cons,
        splitAux_length rest _ [c] (by simp)]
      omega
    · have hcut : ¬(atStart && headerStart (c :: rest) && !acc.isEmpty) = true := by
        intro hh
        rw [Bool.and_eq_true] at hh
        exact hb hh.1
      rw [if_neg hcut, if_neg hb, splitAux_length rest _ (c :: acc) (by simp)]
      omega

theorem splitAux_all_nonblank :
    ∀ (cs : List Char) (atStart : Bool) (acc : List Char),
      (∃ x ∈ acc, x.isWhitespace = false) →
      ∀ ch ∈ splitAux cs atStart acc, pyStrip (⟨ch⟩ : String) ≠ ""
  | [], _, acc, hnw => by
    intro ch hch hcon
    rw [splitAux] at hch
    simp only [List.mem_singleton] at hch
    subst hch
    have hnil : stripChars acc.reverse = [] := congrArg String.data hcon
    rw [stripChars_eq_nil_iff] at hnil
    obtain ⟨x, hx, hxw⟩ := hnw
    rw [hnil x (List.mem_reverse.mpr hx)] at hxw
    exact Bool.noConfusion hxw
  | c :: rest, atStart, acc, hnw => by
    intro ch hch
    rw [splitAux] at hch
    by_cases h : (atStart && headerStart (c :: rest) && !acc.isEmpty) = true
    · rw [if_pos h] at hch
      rcases List.mem_cons.mp hch with h1 | h1
      · subst h1
        intro hcon
        have hnil : stripChars acc.reverse = [] := congrArg String.data hcon
        rw [stripChars_eq_nil_iff] at hnil
        obtain ⟨x, hx, hxw⟩ := hnw
        rw [hnil x (List.mem_reverse.mpr hx)] at hxw
        exact Bool.noConfusion hxw
      · have hc : c = '#' := by
          rw [Bool.and_eq_true, Bool.and_eq_true] at h
          obtain ⟨r, hr⟩ := headerStart_shape h.1.2
          exact (List.cons.inj hr).1
        exact splitAux_all_nonblank rest _ [c]
          ⟨c, by simp, by rw [hc]; rfl⟩ ch h1
    · rw [if_neg h] at hch
      obtain ⟨x, hx, hxw⟩ := hnw
      exact splitAux_all_nonblank rest _ (c :: acc)
        ⟨x, by simp [hx], hxw⟩ ch hch

theorem splitAux_tail_nonblank :
    ∀ (cs : List Char) (atStart : Bool) (acc : List Char),
      ∀ ch ∈ (splitAux cs atStart acc).tail, pyStrip (⟨ch⟩ : String) ≠ ""
  | [], _, acc => by
    intro ch hch
    rw [splitAux] at hch
    simp at hch
  | c :: rest, atStart, acc => by
    intro ch hch
    rw [splitAux] at hch
    by_cases h : (atStart && headerStart (c :: rest) && !acc.isEmpty) = true
    · rw [if_pos h] at hch
      simp only [List.tail_cons] at hch
      have hc : c = '#' := by
        rw [Bool.and_eq_true, Bool.and_eq_true] at h
        obtain ⟨r, hr⟩ := headerStart_shape h.1.2
        exact (List.cons.inj hr).1
      exact splitAux_all_nonblank rest _ [c] ⟨c, by simp, by rw [hc]; rfl⟩ ch hch
    · rw [if_neg h] at hch
      exact splitAux_tail_nonblank rest _ (c :: acc) ch hch

/-- C6 (amended).  `split_markdown_sections` partitions the input exactly
only before stripping: the raw pieces concatenate back to the input text,
but the returned sections are stripped with blank pieces dropped, so
whitespace at piece boundaries is not recovered.  The header/section count
identity holds only when the input has no non-blank preamble (it fails
otherwise, see the counterexample): if the text starts with a section
boundary or its leading piece is blank, the number of detected boundaries
equals the number of returned sections. -/
theorem split_partitions_up_to_trim (text : String) :
    (splitChunks text.data).flatten = text.data ∧
      ((pyStrip (⟨(splitChunks text.data).headD []⟩ : String) = "" ∨
          headerStart text.data = true) →
        (split_markdown_sections text).length = countBoundaries text.data true) := by
  constructor
  · have := splitAux_flatten text.data true []
    simpa [splitChunks] using this
  · intro hpre
    unfold split_markdown_sections
    cases hcs : text.data with
    | nil =>
      simp [splitChunks, splitAux, countBoundaries, pyStrip, stripChars]
    | cons c rest =>
      by_cases hb : headerStart (c :: rest) = true
      · have hchunks : splitChunks (c :: rest) = splitAux rest (c = '\n') [c] := by
          rw [splitChunks, splitAux]
          rw [if_neg (by simp)]
        have hc : c = '#' := by
          obtain ⟨r, hr⟩ := headerStart_shape hb
          exact (List.cons.inj hr).1
        have hall : ∀ ch ∈ splitChunks (c :: rest), pyStrip (⟨ch⟩ : String) ≠ "" := by
          rw [hchunks]
          exact splitAux_all_nonblank rest _ [c] ⟨c, by simp, by rw [hc]; rfl⟩
        have hkeep : (((splitChunks (c :: rest)).map fun cs =>
            pyStrip (⟨cs⟩ : String)).filter fun s => s ≠ "") =
            (splitChunks (c :: rest)).map fun cs => pyStrip (⟨cs⟩ : String) := by
          rw [List.filter_eq_self]
          intro a ha
          rw [List.mem_map] at ha
          obtain ⟨ch, hch, hche⟩ := ha
          simpa [hche] using hall ch hch
        rw [hkeep, List.length_map, hchunks,
          splitAux_length rest _ [c] (by simp), countBoundaries,
          if_pos (by simp [hb])]
      · rcases hpre with hpre | hpre
        · have hchunks : splitChunks (c :: rest) = splitAux rest (c = '\n') [c] := by
            rw [splitChunks, splitAux]
            rw [if_neg (by simp [hb])]
          have hlen : (splitAux rest (decide (c = '\n')) [c]).length =
              1 + countBoundaries rest (decide (c = '\n')) :=
            splitAux_length rest _ [c] (by simp)
          rcases hsp : splitAux rest (decide (c = '\n')) [c] with _ | ⟨ch0, chtail⟩
          · rw [hsp] at hlen
            simp only [List.length_nil] at hlen
            omega
          · have hhead : pyStrip (⟨ch0⟩ : String) = "" := by
              rw [hcs] at hpre
              rw [hchunks, hsp] at hpre
              simpa using hpre
            have htail : ∀ ch ∈ chtail, pyStrip (⟨ch⟩ : String) ≠ "" := by
              intro ch hch
              have := splitAux_tail_nonblank rest (decide (c = '\n')) [c] ch
              rw [hsp] at this
              exact this (by simpa using hch)
            have hkeep : ((chtail.map fun cs => pyStrip (⟨cs⟩ : String)).filter
                fun s => s ≠ "") = chtail.map fun cs => pyStrip (⟨cs⟩ : String) := by
              rw [List.filter_eq_self]
              intro a ha
              rw [List.mem_map] at ha
              obtain ⟨ch, hch, hche⟩ := ha
              simpa [hche] using htail ch hch
            rw [hchunks, hsp, List.map_cons, List.filter_cons, hhead,
              if_neg (by decide), hkeep, List.length_map,
              countBoundaries, if_neg (by simp [hb])]
            have hlen2 := hlen
            rw [hsp] at hlen2
            simp only [List.length_cons] at hlen2
            omega
        · rw [hcs] at hpre
          exact absurd hpre hb

theorem split_partitions_up_to_trim_witness :
    (splitChunks "### 2023-01-01\na\n### 2023-01-02\nb".data).flatten =
        "### 2023-01-01\na\n### 2023-01-02\nb".data ∧
      (split_markdown_sections "### 2023-01-01\na\n### 2023-01-02\nb").length =
        countBoundaries "### 2023-01-01\na\n### 2023-01-02\nb".data true :=
  ⟨(split_partitions_up_to_trim "### 2023-01-01\na\n### 2023-01-02\nb").1,
   (split_partitions_up_to_trim "### 2023-01-01\na\n### 2023-01-02\nb").2 (by decide)⟩

end HealthLog
